import Mathlib

/-!
# Multipart uploader (`main.go`, package `uploader`)

A shallow embedding of the HTTP handler `Upload` and of its helpers
`validateUploadFiles`, `uploadPart`, `abortMultipartUpload` and
`completeMultipartUpload`.

Modelling conventions.

* Go `int` / `int64` values that the program only counts with (sizes, offsets,
  part numbers, try counters) are natural numbers; every value stays far below
  `2^63`, so no wrap-around is involved.
* A Go `error` is the text of its message; `nil` is `none`.
* The S3 client `svc` is an oracle: the answer to a call is a function of the
  calls (with their answers) made so far in this request and of the call's
  input.  Every call appends one `Event` to the trace, so the trace lists the
  backend calls in the order they were made.
* Pointer fields of the SDK structures (`*string`, `*int64`) are their values.
* Output written with `fmt.Print*` is not part of the model.
* Loops that Go runs until a condition fails are run with fuel; `none` means
  that the fuel ran out.
-/

namespace Uploader

/-! ## Constants -/

/-- The constants of `main.go`, lines 22-25, as a record so that the loops can
be studied for every part size and retry bound. -/
structure Config where
  maxPartSize : Nat
  maxRetries : Nat
  deriving DecidableEq, Repr

/-- The values of the constants in the source:
`maxPartSize = int64(5 * 1024 * 1024)`, `maxRetries = 3`. -/
def consts : Config := ⟨5 * 1024 * 1024, 3⟩

/-! ## Data -/

/-- A Go `error`, kept as its message. -/
abbrev Error := String

/-- The part of `multipart.FileHeader` that the program reads.
`content` holds the bytes of the part, `Header.Get("Content-Type")` is
`contentType`, and `readErr` is the error of `ioutil.ReadAll` when reading the
part fails. -/
structure FileHeader where
  Filename : String
  contentType : String
  content : List Nat
  readErr : Option Error
  deriving DecidableEq, Repr

/-- The field `FileHeader.Size`: the multipart reader sets it to the number of
bytes of the part. -/
def FileHeader.Size (f : FileHeader) : Nat := f.content.length

structure CreateMultipartUploadInput where
  Bucket : String
  Key : String
  ContentType : String
  deriving DecidableEq, Repr

structure CreateMultipartUploadOutput where
  Bucket : String
  Key : String
  UploadId : String
  deriving DecidableEq, Repr

structure UploadPartInput where
  Body : List Nat
  Bucket : String
  Key : String
  PartNumber : Nat
  UploadId : String
  ContentLength : Nat
  deriving DecidableEq, Repr

structure UploadPartOutput where
  ETag : String
  deriving DecidableEq, Repr

structure CompletedPart where
  ETag : String
  PartNumber : Nat
  deriving DecidableEq, Repr

/-- The field `Parts` is a `[]*s3.CompletedPart`; an entry can be `nil`. -/
structure CompleteMultipartUploadInput where
  Bucket : String
  Key : String
  UploadId : String
  Parts : List (Option CompletedPart)
  deriving DecidableEq, Repr

structure CompleteMultipartUploadOutput where
  Location : String
  deriving DecidableEq, Repr

structure AbortMultipartUploadInput where
  Bucket : String
  Key : String
  UploadId : String
  deriving DecidableEq, Repr

/-- One backend call together with the answer it got. -/
inductive Event where
  | CreateMultipartUpload (input : CreateMultipartUploadInput)
      (result : Except Error CreateMultipartUploadOutput)
  | UploadPart (input : UploadPartInput) (result : Except Error UploadPartOutput)
  | CompleteMultipartUpload (input : CompleteMultipartUploadInput)
      (result : Except Error CompleteMultipartUploadOutput)
  | AbortMultipartUpload (input : AbortMultipartUploadInput) (err : Option Error)

/-- The S3 client: each operation answers from the history of the request and
the input of the call. -/
structure S3 where
  CreateMultipartUpload :
    List Event → CreateMultipartUploadInput → Except Error CreateMultipartUploadOutput
  UploadPart : List Event → UploadPartInput → Except Error UploadPartOutput
  CompleteMultipartUpload :
    List Event → CompleteMultipartUploadInput → Except Error CompleteMultipartUploadOutput
  AbortMultipartUpload : List Event → AbortMultipartUploadInput → Option Error

/-- What the handler reads from its surroundings: the bucket name, the outcome
of `creds.Get()` and of `session.NewSession(cfg)`, the formatted time of the
request and the content sniffer `http.DetectContentType`. -/
structure Env where
  awsBucketName : String
  credsErr : Option Error
  sessionErr : Option Error
  nowRFC3339 : String
  DetectContentType : List Nat → String

/-- The JSON answer written with `c.JSON`: a status with either the pair
`message` / `path` or the list `paths`. -/
inductive Response where
  | failure (status : Nat) (message : String) (path : String)
  | success (status : Nat) (paths : List String)
  deriving DecidableEq, Repr

/-- The `path` entry of a failure answer: the call the handler blames. -/
def Response.path : Response → Option String
  | .failure _ _ p => some p
  | .success _ _ => none

/-- The `message` entry of a failure answer. -/
def Response.message : Response → Option String
  | .failure _ m _ => some m
  | .success _ _ => none

/-! ## The program -/

/-- Lines 259-273. -/
def validateUploadFiles (cfg : Config) : List FileHeader → Bool × String
  | [] => (true, "ok")
  | formFile :: files =>
    if formFile.Size > cfg.maxPartSize then
      (false, "File too large")
    else if formFile.contentType ≠ "image/jpeg" ∧ formFile.contentType ≠ "image/png" then
      (false, "Filetype is not supported")
    else
      validateUploadFiles cfg files

/-- Lines 38-55.  Opening the part is taken to succeed (the source ignores the
error of `file.Open()`); a failing `Close`, on which the source ends the
process, is outside the model. -/
def readFile (file : FileHeader) : Except Error (List Nat) :=
  match file.readErr with
  | some err => .error err
  | none => .ok file.content

/-- The `for tryNum <= maxRetries` loop of `uploadPart`, lines 226-245.  The
result is the Go pair `(*s3.CompletedPart, error)` and the new trace. -/
def uploadPartLoop (cfg : Config) (svc : S3) (partInput : UploadPartInput) (partNumber : Nat) :
    Nat → Nat → List Event → Option ((Option CompletedPart × Option Error) × List Event)
  | 0, _, _ => none
  | fuel + 1, tryNum, tr =>
    if tryNum ≤ cfg.maxRetries then
      match svc.UploadPart tr partInput with
      | .error err =>
        if tryNum = cfg.maxRetries then
          some ((none, some err), tr ++ [Event.UploadPart partInput (.error err)])
        else
          uploadPartLoop cfg svc partInput partNumber fuel (tryNum + 1)
            (tr ++ [Event.UploadPart partInput (.error err)])
      | .ok uploadResult =>
        some ((some ⟨uploadResult.ETag, partNumber⟩, none),
          tr ++ [Event.UploadPart partInput (.ok uploadResult)])
    else
      some ((none, none), tr)

/-- The input built at lines 217-224. -/
def partInputOf (resp : CreateMultipartUploadOutput) (fileBytes : List Nat) (partNumber : Nat) :
    UploadPartInput :=
  ⟨fileBytes, resp.Bucket, resp.Key, partNumber, resp.UploadId, fileBytes.length⟩

/-- Lines 215-246. -/
def uploadPart (cfg : Config) (svc : S3) (resp : CreateMultipartUploadOutput)
    (fileBytes : List Nat) (partNumber : Nat) (tr : List Event) :
    Option ((Option CompletedPart × Option Error) × List Event) :=
  uploadPartLoop cfg svc (partInputOf resp fileBytes partNumber) partNumber
    (cfg.maxRetries + 1) 1 tr

/-- Lines 248-257. -/
def abortMultipartUpload (svc : S3) (resp : CreateMultipartUploadOutput) (tr : List Event) :
    Option Error × List Event :=
  let abortInput : AbortMultipartUploadInput := ⟨resp.Bucket, resp.Key, resp.UploadId⟩
  let err := svc.AbortMultipartUpload tr abortInput
  (err, tr ++ [Event.AbortMultipartUpload abortInput err])

/-- Lines 203-213. -/
def completeMultipartUpload (svc : S3) (resp : CreateMultipartUploadOutput)
    (completedParts : List (Option CompletedPart)) (tr : List Event) :
    Except Error CompleteMultipartUploadOutput × List Event :=
  let completeInput : CompleteMultipartUploadInput :=
    ⟨resp.Bucket, resp.Key, resp.UploadId, completedParts⟩
  let r := svc.CompleteMultipartUpload tr completeInput
  (r, tr ++ [Event.CompleteMultipartUpload completeInput r])

/-- The answer written at lines 161-164. -/
def abortResponse : Response :=
  .failure 500 "Failed abortMultipartUpload" "abortMultipartUpload(svc, resp)"

/-- The loop `for curr = 0; remaining != 0; curr += partLength`, lines 143-171.
The loop either leaves with the handler's answer (`.error`) or falls through
with the completed parts (`.ok`). -/
def uploadParts (cfg : Config) (svc : S3) (resp : CreateMultipartUploadOutput)
    (binaryFile : List Nat) :
    Nat → Nat → Nat → Nat → List (Option CompletedPart) → List Event →
      Option (Except Response (List (Option CompletedPart)) × List Event)
  | 0, _, _, _, _, _ => none
  | fuel + 1, curr, remaining, partNumber, completedParts, tr =>
    if remaining ≠ 0 then
      let partLength := if remaining < cfg.maxPartSize then remaining else cfg.maxPartSize
      match uploadPart cfg svc resp ((binaryFile.drop curr).take partLength) partNumber tr with
      | none => none
      | some ((_, some _), tr1) =>
        some (.error abortResponse, (abortMultipartUpload svc resp tr1).2)
      | some ((completedPart, none), tr1) =>
        uploadParts cfg svc resp binaryFile fuel (curr + partLength) (remaining - partLength)
          (partNumber + 1) (completedParts ++ [completedPart]) tr1
    else
      some (.ok completedParts, tr)

/-- The control variables of the loop of lines 143-171 when no part fails: the
pairs `(curr, partLength)` of the slices `binaryFile[curr:curr+partLength]` it
takes, in order. -/
def partPlan (cfg : Config) : Nat → Nat → Nat → Option (List (Nat × Nat))
  | 0, _, _ => none
  | fuel + 1, curr, remaining =>
    if remaining ≠ 0 then
      let partLength := if remaining < cfg.maxPartSize then remaining else cfg.maxPartSize
      (partPlan cfg fuel (curr + partLength) (remaining - partLength)).map
        (fun rest => (curr, partLength) :: rest)
    else
      some []

/-- The input built at lines 118-125: the bucket of the configuration, the key
`"/media/" + nowRFC3339 + "-" + formFile.Filename` and the sniffed type. -/
def createInputOf (env : Env) (formFile : FileHeader) (binaryFile : List Nat) :
    CreateMultipartUploadInput :=
  let path := "/media/" ++ env.nowRFC3339 ++ "-" ++ formFile.Filename
  let fileType := env.DetectContentType binaryFile
  ⟨env.awsBucketName, path, fileType⟩

/-- The body of `for _, formFile := range form.Files`, lines 107-188: either
the handler's answer (`.error`) or the location stored in `successPaths`. -/
def uploadFile (cfg : Config) (env : Env) (svc : S3) (formFile : FileHeader) (tr : List Event) :
    Option (Except Response String × List Event) :=
  match readFile formFile with
  | .error _ => some (.error (.failure 500 "Failed read file" " readFile(formFile)"), tr)
  | .ok binaryFile =>
    let input := createInputOf env formFile binaryFile
    match svc.CreateMultipartUpload tr input with
    | .error err =>
      some (.error (.failure 500 "Failed CreateMultipartUpload" "svc.CreateMultipartUpload(input)"),
        tr ++ [Event.CreateMultipartUpload input (.error err)])
    | .ok resp =>
      match uploadParts cfg svc resp binaryFile (formFile.Size + 1) 0 formFile.Size 1 []
          (tr ++ [Event.CreateMultipartUpload input (.ok resp)]) with
      | none => none
      | some (.error r, tr2) => some (.error r, tr2)
      | some (.ok completedParts, tr2) =>
        match completeMultipartUpload svc resp completedParts tr2 with
        | (.error _, tr3) =>
          some (.error (.failure 500 "Failed completeMultipartUpload"
            "completeMultipartUpload(svc, resp, completedParts)"), tr3)
        | (.ok completeResponse, tr3) => some (.ok completeResponse.Location, tr3)

/-- The loop `for _, formFile := range form.Files`, lines 106-196, with the
slice `successPaths` and the index `pathNumber`. -/
def uploadFiles (cfg : Config) (env : Env) (svc : S3) :
    List FileHeader → List String → Nat → List Event →
      Option (Except Response (List String) × List Event)
  | [], successPaths, _, tr => some (.ok successPaths, tr)
  | formFile :: files, successPaths, pathNumber, tr =>
    match uploadFile cfg env svc formFile tr with
    | none => none
    | some (.error r, tr1) => some (.error r, tr1)
    | some (.ok location, tr1) =>
      uploadFiles cfg env svc files (successPaths.set pathNumber location) (pathNumber + 1) tr1

/-- The handler, lines 57-201, on the files bound from the form.  The result is
the JSON answer and the backend calls made. -/
def Upload (cfg : Config) (env : Env) (svc : S3) (files : List FileHeader) :
    Option (Response × List Event) :=
  match validateUploadFiles cfg files with
  | (false, message) => some (.failure 400 message "validateUploadFiles(form.Files)", [])
  | (true, _) =>
    match env.credsErr with
    | some _ => some (.failure 500 "bad credentials" "creds.Get()", [])
    | none =>
      match env.sessionErr with
      | some _ => some (.failure 500 "Failed creating new session" "session.NewSession(cfg)", [])
      | none =>
        match uploadFiles cfg env svc files (List.replicate files.length "") 0 [] with
        | none => none
        | some (.error r, tr) => some (r, tr)
        | some (.ok successPaths, tr) => some (.success 200 successPaths, tr)


/-! ## Reading a trace -/

/-- An upload-part call. -/
def Event.isUploadPart : Event → Bool
  | .UploadPart _ _ => true
  | _ => false

/-- An abort call. -/
def Event.isAbort : Event → Bool
  | .AbortMultipartUpload _ _ => true
  | _ => false

/-- A completion call. -/
def Event.isComplete : Event → Bool
  | .CompleteMultipartUpload _ _ => true
  | _ => false

/-- The failed upload-part calls for one input, one for each error, in order. -/
def failEvents (partInput : UploadPartInput) (errs : List Error) : List Event :=
  errs.map (fun e => Event.UploadPart partInput (.error e))

/-- The upload-part calls of a trace that succeeded, with their answers. -/
def okUploads : List Event → List (UploadPartInput × UploadPartOutput)
  | [] => []
  | Event.UploadPart input (.ok output) :: rest => (input, output) :: okUploads rest
  | _ :: rest => okUploads rest

/-- The part numbers and bodies of the slices of a plan, numbered from
`partNumber` on. -/
def planSlices (binaryFile : List Nat) : Nat → List (Nat × Nat) → List (Nat × List Nat)
  | _, [] => []
  | partNumber, (curr, partLength) :: rest =>
    (partNumber, (binaryFile.drop curr).take partLength) ::
      planSlices binaryFile (partNumber + 1) rest

/-! ## Concrete inputs used in the examples -/

/-- A backend whose first `k` upload-part calls of a request fail with
"timeout"; every other call succeeds, an upload-part call with the eTag
"etag-" followed by the part number. -/
def svcFlaky (k : Nat) : S3 :=
  ⟨fun _ i => .ok ⟨i.Bucket, i.Key, "upload-1"⟩,
   fun h i =>
    if h.countP Event.isUploadPart < k then .error "timeout"
    else .ok ⟨"etag-" ++ toString i.PartNumber⟩,
   fun _ i => .ok ⟨"https://s3/" ++ i.Key⟩,
   fun _ _ => none⟩

/-- As `svcFlaky 3`, with an abort call that fails as well. -/
def svcFlakyAbortFails : S3 :=
  ⟨(svcFlaky 3).CreateMultipartUpload, (svcFlaky 3).UploadPart,
   (svcFlaky 3).CompleteMultipartUpload, fun _ _ => some "abort failed"⟩

/-- A backend on which every call succeeds and whose upload-part calls answer
with the eTags "a", "b", "c" in turn. -/
def svcABC : S3 :=
  ⟨fun _ i => .ok ⟨i.Bucket, i.Key, "upload-1"⟩,
   fun h _ =>
    match h.countP Event.isUploadPart with
    | 0 => .ok ⟨"a"⟩
    | 1 => .ok ⟨"b"⟩
    | _ => .ok ⟨"c"⟩,
   fun _ i => .ok ⟨"https://s3/" ++ i.Key⟩,
   fun _ _ => none⟩

/-- The answer of a create call for the key `/media/now-a.png`. -/
def resp0 : CreateMultipartUploadOutput := ⟨"bucket", "/media/now-a.png", "upload-1"⟩

/-- Working surroundings: credentials and session are fine and the request is
made at the time "now".  The sniffer answers as `http.DetectContentType` does on
the inputs used below: `text/plain; charset=utf-8` for no bytes at all and
`application/octet-stream` for the binary contents of the other files. -/
def env0 : Env :=
  ⟨"bucket", none, none, "now",
   fun bytes =>
    match bytes with
    | [] => "text/plain; charset=utf-8"
    | _ :: _ => "application/octet-stream"⟩

/-- A three-byte PNG upload. -/
def smallPng : FileHeader := ⟨"a.png", "image/png", [1, 2, 3], none⟩

/-- A five-byte PNG upload. -/
def fiveBytes : FileHeader := ⟨"c.png", "image/png", [1, 2, 3, 4, 5], none⟩

/-- An empty PNG upload. -/
def emptyPng : FileHeader := ⟨"e.png", "image/png", [], none⟩

/-- A one-byte upload that declares `image/gif`. -/
def gifFile : FileHeader := ⟨"b.gif", "image/gif", [7], none⟩

/-- A JPEG upload of 12 MB. -/
def file12MB : FileHeader := ⟨"big.jpg", "image/jpeg", List.replicate (12 * 1024 * 1024) 0, none⟩

/-- A configuration with parts of two bytes, to run several parts on a short
file. -/
def twoByteParts : Config := ⟨2, 3⟩

/-! ## Theorems -/

/-! ### The validator -/

theorem validateUploadFiles_all (cfg : Config) (files : List FileHeader) :
    validateUploadFiles cfg files = (true, "ok") ↔
      ∀ f ∈ files, f.Size ≤ cfg.maxPartSize ∧
        (f.contentType = "image/jpeg" ∨ f.contentType = "image/png") := by
  induction files with
  | nil => simp [validateUploadFiles]
  | cons f fs ih =>
    unfold validateUploadFiles
    by_cases h1 : f.Size > cfg.maxPartSize
    · simp [h1]
    · by_cases h2 : f.contentType ≠ "image/jpeg" ∧ f.contentType ≠ "image/png"
      · rw [if_neg h1, if_pos h2]
        constructor
        · intro h
          simp at h
        · intro h
          rcases (h f (List.mem_cons_self f fs)).2 with h | h
          · exact absurd h h2.1
          · exact absurd h h2.2
      · rw [if_neg h1, if_neg h2, ih]
        have h3 : f.contentType = "image/jpeg" ∨ f.contentType = "image/png" := by
          by_contra hc
          exact h2 ⟨fun h => hc (Or.inl h), fun h => hc (Or.inr h)⟩
        simp [h3, Nat.le_of_not_gt h1]

theorem validateUploadFiles_first (cfg : Config) (pre : List FileHeader) (f : FileHeader)
    (post : List FileHeader)
    (hpre : ∀ g ∈ pre, g.Size ≤ cfg.maxPartSize ∧
      (g.contentType = "image/jpeg" ∨ g.contentType = "image/png")) :
    validateUploadFiles cfg (pre ++ f :: post) = validateUploadFiles cfg (f :: post) := by
  induction pre with
  | nil => rfl
  | cons g gs ih =>
    have hg := hpre g (List.mem_cons_self g gs)
    have hgs : ∀ g ∈ gs, g.Size ≤ cfg.maxPartSize ∧
        (g.contentType = "image/jpeg" ∨ g.contentType = "image/png") :=
      fun x hx => hpre x (List.mem_cons_of_mem g hx)
    have h1 : ¬ g.Size > cfg.maxPartSize := Nat.not_lt.mpr hg.1
    have h2 : ¬ (g.contentType ≠ "image/jpeg" ∧ g.contentType ≠ "image/png") := by
      rintro ⟨a, b⟩
      rcases hg.2 with h | h
      · exact a h
      · exact b h
    show validateUploadFiles cfg (g :: (gs ++ f :: post)) = _
    rw [validateUploadFiles]
    simp only [h1, h2, if_false]
    exact ih hgs

/-- C1. `validateUploadFiles` answers `(true, "ok")` exactly when every file is
at most `maxPartSize` bytes long (the size limit of the source) and declares
`image/jpeg` or `image/png`; otherwise the answer is `false` with the reason of
the first offending file: "File too large" when it is over the limit,
"Filetype is not supported" when it is within the limit with another type,
whatever files follow it. -/
theorem validateUploadFiles_spec (cfg : Config) (files : List FileHeader) :
    (validateUploadFiles cfg files = (true, "ok") ↔
      ∀ f ∈ files, f.Size ≤ cfg.maxPartSize ∧
        (f.contentType = "image/jpeg" ∨ f.contentType = "image/png")) ∧
    (∀ pre f post, files = pre ++ f :: post →
      (∀ g ∈ pre, g.Size ≤ cfg.maxPartSize ∧
        (g.contentType = "image/jpeg" ∨ g.contentType = "image/png")) →
      (cfg.maxPartSize < f.Size →
        validateUploadFiles cfg files = (false, "File too large")) ∧
      (f.Size ≤ cfg.maxPartSize → f.contentType ≠ "image/jpeg" →
        f.contentType ≠ "image/png" →
        validateUploadFiles cfg files = (false, "Filetype is not supported"))) := by
  refine ⟨validateUploadFiles_all cfg files, ?_⟩
  intro pre f post hfiles hpre
  subst hfiles
  rw [validateUploadFiles_first cfg pre f post hpre]
  constructor
  · intro h
    simp [validateUploadFiles, h]
  · intro h a b
    have h1 : ¬ f.Size > cfg.maxPartSize := Nat.not_lt.mpr h
    simp [validateUploadFiles, h1, a, b]

/-! ### The retry loop of `uploadPart` -/

theorem failEvents_cons (pi : UploadPartInput) (e : Error) (errs : List Error) :
    failEvents pi (e :: errs) = Event.UploadPart pi (.error e) :: failEvents pi errs := rfl

theorem failEvents_nil (pi : UploadPartInput) : failEvents pi [] = [] := rfl

/-- After `errs.length` failed tries (fewer than are left) the next try
succeeds: the loop returns the completed part. -/
theorem uploadPartLoop_ok (cfg : Config) (svc : S3) (pi : UploadPartInput) (pn : Nat)
    (out : UploadPartOutput) :
    ∀ (errs : List Error) (fuel tryNum : Nat) (tr : List Event),
      tryNum + errs.length ≤ cfg.maxRetries → errs.length < fuel →
      (∀ i (h : i < errs.length),
        svc.UploadPart (tr ++ failEvents pi (errs.take i)) pi = .error (errs.get ⟨i, h⟩)) →
      svc.UploadPart (tr ++ failEvents pi errs) pi = .ok out →
      uploadPartLoop cfg svc pi pn fuel tryNum tr =
        some ((some ⟨out.ETag, pn⟩, none),
          tr ++ failEvents pi errs ++ [Event.UploadPart pi (.ok out)]) := by
  intro errs
  induction errs with
  | nil =>
    intro fuel tryNum tr h1 h2 _ hok
    obtain ⟨fuel, rfl⟩ : ∃ f, fuel = f + 1 := ⟨fuel - 1, by simp at h2; omega⟩
    simp only [failEvents_nil, List.append_nil] at hok ⊢
    simp only [List.length_nil, Nat.add_zero] at h1
    simp [uploadPartLoop, h1, hok]
  | cons e errs ih =>
    intro fuel tryNum tr h1 h2 hfail hok
    simp only [List.length_cons] at h1 h2
    obtain ⟨fuel, rfl⟩ : ∃ f, fuel = f + 1 := ⟨fuel - 1, by omega⟩
    have h0 := hfail 0 (by simp)
    simp only [List.take_zero, failEvents_nil, List.append_nil, List.get_eq_getElem,
      List.getElem_cons_zero] at h0
    have hle : tryNum ≤ cfg.maxRetries := by omega
    have hne : tryNum ≠ cfg.maxRetries := by omega
    rw [uploadPartLoop]
    simp only [hle, if_true, h0, hne, if_false]
    rw [ih fuel (tryNum + 1) (tr ++ [Event.UploadPart pi (.error e)]) (by omega) (by omega)]
    · simp [failEvents_cons]
    · intro i h
      have := hfail (i + 1) (by simp; omega)
      simpa [failEvents_cons] using this
    · simpa [failEvents_cons] using hok

/-- Every try that is left fails: the loop returns the error of the last one. -/
theorem uploadPartLoop_fail (cfg : Config) (svc : S3) (pi : UploadPartInput) (pn : Nat) :
    ∀ (errs : List Error) (fuel tryNum : Nat) (tr : List Event),
      tryNum + errs.length = cfg.maxRetries + 1 → errs.length < fuel →
      (∀ i (h : i < errs.length),
        svc.UploadPart (tr ++ failEvents pi (errs.take i)) pi = .error (errs.get ⟨i, h⟩)) →
      uploadPartLoop cfg svc pi pn fuel tryNum tr =
        some ((none, errs.getLast?), tr ++ failEvents pi errs) := by
  intro errs
  induction errs with
  | nil =>
    intro fuel tryNum tr h1 h2 _
    obtain ⟨fuel, rfl⟩ : ∃ f, fuel = f + 1 := ⟨fuel - 1, by simp at h2; omega⟩
    simp only [List.length_nil, Nat.add_zero] at h1
    have : ¬ tryNum ≤ cfg.maxRetries := by omega
    simp [uploadPartLoop, this, failEvents_nil]
  | cons e errs ih =>
    intro fuel tryNum tr h1 h2 hfail
    simp only [List.length_cons] at h1 h2
    obtain ⟨fuel, rfl⟩ : ∃ f, fuel = f + 1 := ⟨fuel - 1, by omega⟩
    have h0 := hfail 0 (by simp)
    simp only [List.take_zero, failEvents_nil, List.append_nil, List.get_eq_getElem,
      List.getElem_cons_zero] at h0
    have hle : tryNum ≤ cfg.maxRetries := by omega
    rw [uploadPartLoop]
    simp only [hle, if_true, h0]
    cases errs with
    | nil =>
      simp only [List.length_nil] at h1
      have : tryNum = cfg.maxRetries := by omega
      simp [this, failEvents_cons, failEvents_nil]
    | cons e2 errs =>
      have hne : tryNum ≠ cfg.maxRetries := by simp only [List.length_cons] at h1; omega
      simp only [hne, if_false]
      rw [ih fuel (tryNum + 1) (tr ++ [Event.UploadPart pi (.error e)]) (by omega) (by omega)]
      · simp [failEvents_cons]
      · intro i h
        have := hfail (i + 1) (by simp at h ⊢; omega)
        simpa [failEvents_cons] using this

/-- C3. `uploadPart` against a backend whose upload-part call fails `k` times
(the errors `errs`, `k = errs.length`) for this input: if `k < maxRetries` and
the next call succeeds, `uploadPart` makes exactly those `k + 1` calls, all with
the same input (part number `partNumber`, body `fileBytes`), and returns the
completed part with that part number and the eTag of the successful call, with
no error; if `k = maxRetries`, it makes exactly those `maxRetries` calls and
returns no part together with the error of the last call (`errs.getLast?`;
with `maxRetries = 0` no call is made and there is no error to return). -/
theorem uploadPart_retry_bound (cfg : Config) (svc : S3) (resp : CreateMultipartUploadOutput)
    (fileBytes : List Nat) (partNumber : Nat) (tr : List Event) (errs : List Error)
    (hfail : ∀ i (h : i < errs.length),
      svc.UploadPart (tr ++ failEvents (partInputOf resp fileBytes partNumber) (errs.take i))
        (partInputOf resp fileBytes partNumber) = .error (errs.get ⟨i, h⟩)) :
    ((partInputOf resp fileBytes partNumber).PartNumber = partNumber ∧
      (partInputOf resp fileBytes partNumber).Body = fileBytes) ∧
    (errs.length < cfg.maxRetries → ∀ out,
      svc.UploadPart (tr ++ failEvents (partInputOf resp fileBytes partNumber) errs)
        (partInputOf resp fileBytes partNumber) = .ok out →
      uploadPart cfg svc resp fileBytes partNumber tr =
        some ((some ⟨out.ETag, partNumber⟩, none),
          tr ++ failEvents (partInputOf resp fileBytes partNumber) errs ++
            [Event.UploadPart (partInputOf resp fileBytes partNumber) (.ok out)])) ∧
    (errs.length = cfg.maxRetries →
      uploadPart cfg svc resp fileBytes partNumber tr =
        some ((none, errs.getLast?),
          tr ++ failEvents (partInputOf resp fileBytes partNumber) errs)) := by
  refine ⟨⟨rfl, rfl⟩, ?_, ?_⟩
  · intro hk out hok
    exact uploadPartLoop_ok cfg svc _ partNumber out errs _ 1 tr (by omega) (by omega) hfail hok
  · intro hk
    exact uploadPartLoop_fail cfg svc _ partNumber errs _ 1 tr (by omega) (by omega) hfail

/-- With the constants of the source: two failures then a success give three
calls and the part; three failures give three calls and the last error. -/
theorem uploadPart_retry_bound_witness :
    uploadPart consts (svcFlaky 2) resp0 [1, 2, 3] 1 [] =
      some ((some ⟨"etag-1", 1⟩, none),
        [] ++ failEvents (partInputOf resp0 [1, 2, 3] 1) ["timeout", "timeout"] ++
          [Event.UploadPart (partInputOf resp0 [1, 2, 3] 1) (.ok ⟨"etag-1"⟩)]) ∧
    uploadPart consts (svcFlaky 3) resp0 [1, 2, 3] 1 [] =
      some ((none, some "timeout"),
        [] ++ failEvents (partInputOf resp0 [1, 2, 3] 1) ["timeout", "timeout", "timeout"]) :=
  ⟨(uploadPart_retry_bound consts (svcFlaky 2) resp0 [1, 2, 3] 1 [] ["timeout", "timeout"]
      (fun i h => match i, h with
        | 0, _ => rfl
        | 1, _ => rfl)).2.1 (by decide) ⟨"etag-1"⟩ rfl,
   (uploadPart_retry_bound consts (svcFlaky 3) resp0 [1, 2, 3] 1 []
      ["timeout", "timeout", "timeout"]
      (fun i h => match i, h with
        | 0, _ => rfl
        | 1, _ => rfl
        | 2, _ => rfl)).2.2 rfl⟩

/-! ### The part-splitting loop -/

/-- The invariant of the part-splitting loop from any state `(curr, remaining)`. -/
theorem partPlan_inv (cfg : Config) (hm : 0 < cfg.maxPartSize) :
    ∀ (fuel curr remaining : Nat), remaining < fuel →
      ∃ plan, partPlan cfg fuel curr remaining = some plan ∧
        plan.length = (remaining + cfg.maxPartSize - 1) / cfg.maxPartSize ∧
        (∀ p ∈ plan.head?, p.1 = curr) ∧
        List.Chain' (fun a b : Nat × Nat => b.1 = a.1 + a.2) plan ∧
        (∀ p ∈ plan, p.2 = min cfg.maxPartSize (curr + remaining - p.1) ∧
          1 ≤ p.2 ∧ p.2 ≤ cfg.maxPartSize ∧ curr ≤ p.1) ∧
        (plan.map Prod.snd).sum = remaining := by
  intro fuel
  induction fuel with
  | zero => intro curr remaining h; omega
  | succ fuel ih =>
    intro curr remaining hlt
    by_cases hr : remaining = 0
    · subst hr
      refine ⟨[], by simp [partPlan], ?_, by simp, by simp, by simp, by simp⟩
      simp only [List.length_nil, Nat.zero_add]
      exact (Nat.div_eq_of_lt (by omega)).symm
    · by_cases hlt2 : remaining < cfg.maxPartSize
      · obtain ⟨plan, hp, hlen, hhead, hchain, hall, hsum⟩ :=
          ih (curr + remaining) (remaining - remaining) (by omega)
        simp only [Nat.sub_self] at hp hlen hall hsum
        refine ⟨(curr, remaining) :: plan, ?_, ?_, ?_, ?_, ?_, ?_⟩
        · simp [partPlan, hr, hlt2, hp]
        · simp only [List.length_cons, hlen, Nat.zero_add]
          rw [Nat.div_eq_of_lt (by omega)]
          have h1 : (remaining + cfg.maxPartSize - 1) / cfg.maxPartSize = 1 := by
            apply Nat.div_eq_of_lt_le <;> omega
          omega
        · simp
        · rw [List.chain'_cons']
          exact ⟨fun y hy => hhead y hy, hchain⟩
        · intro p hp
          rcases List.mem_cons.mp hp with rfl | hp
          · simp only
            refine ⟨?_, by omega, by omega, by omega⟩
            rw [Nat.add_sub_cancel_left]
            omega
          · obtain ⟨a, b, c, d⟩ := hall p hp
            refine ⟨?_, b, c, by omega⟩
            rw [a, Nat.add_zero]
        · simp only [List.map_cons, List.sum_cons, hsum]
          omega
      · obtain ⟨plan, hp, hlen, hhead, hchain, hall, hsum⟩ :=
          ih (curr + cfg.maxPartSize) (remaining - cfg.maxPartSize) (by omega)
        refine ⟨(curr, cfg.maxPartSize) :: plan, ?_, ?_, ?_, ?_, ?_, ?_⟩
        · simp [partPlan, hr, hlt2, hp]
        · simp only [List.length_cons, hlen]
          have h1 : remaining + cfg.maxPartSize - 1 =
              (remaining - cfg.maxPartSize + cfg.maxPartSize - 1) + cfg.maxPartSize := by omega
          rw [h1, Nat.add_div_right _ hm]
        · simp
        · rw [List.chain'_cons']
          exact ⟨fun y hy => hhead y hy, hchain⟩
        · intro p hp
          rcases List.mem_cons.mp hp with rfl | hp
          · simp only
            refine ⟨?_, by omega, by omega, by omega⟩
            rw [Nat.add_sub_cancel_left]
            omega
          · obtain ⟨a, b, c, d⟩ := hall p hp
            refine ⟨?_, b, c, by omega⟩
            rw [a]
            congr 1
            omega
        · simp only [List.map_cons, List.sum_cons, hsum]
          omega

/-! ### The shape of the runs of `uploadPart` and of the part loop -/

/-- The shape of every run of the retry loop: some failed calls, then either a
successful call (and a part), or nothing more (and the last error) once the
tries are used up. -/
theorem uploadPartLoop_shape (cfg : Config) (svc : S3) (pi : UploadPartInput) (pn : Nat) :
    ∀ (fuel tryNum : Nat) (tr : List Event),
      tryNum ≤ cfg.maxRetries + 1 → cfg.maxRetries + 2 ≤ fuel + tryNum →
      ∃ errs : List Error,
        (∃ out, uploadPartLoop cfg svc pi pn fuel tryNum tr =
            some ((some ⟨out.ETag, pn⟩, none),
              tr ++ failEvents pi errs ++ [Event.UploadPart pi (.ok out)]) ∧
          tryNum + errs.length ≤ cfg.maxRetries) ∨
        (uploadPartLoop cfg svc pi pn fuel tryNum tr =
            some ((none, errs.getLast?), tr ++ failEvents pi errs) ∧
          tryNum + errs.length = cfg.maxRetries + 1) := by
  intro fuel
  induction fuel with
  | zero => intro tryNum tr h1 h2; omega
  | succ fuel ih =>
    intro tryNum tr h1 h2
    by_cases hle : tryNum ≤ cfg.maxRetries
    · cases hres : svc.UploadPart tr pi with
      | ok out =>
        refine ⟨[], Or.inl ⟨out, ?_, by simpa using hle⟩⟩
        simp [uploadPartLoop, hle, hres, failEvents_nil]
      | error e =>
        by_cases heq : tryNum = cfg.maxRetries
        · refine ⟨[e], Or.inr ⟨?_, by simp; omega⟩⟩
          simp [uploadPartLoop, hle, hres, heq, failEvents_cons, failEvents_nil]
        · obtain ⟨errs, h⟩ := ih (tryNum + 1) (tr ++ [Event.UploadPart pi (.error e)])
            (by omega) (by omega)
          have hstep : uploadPartLoop cfg svc pi pn (fuel + 1) tryNum tr =
              uploadPartLoop cfg svc pi pn fuel (tryNum + 1)
                (tr ++ [Event.UploadPart pi (.error e)]) := by
            rw [uploadPartLoop]
            simp only [hle, if_true, hres, heq, if_false]
          rcases h with ⟨out, h, hl⟩ | ⟨h, hl⟩
          · refine ⟨e :: errs, Or.inl ⟨out, ?_, by simp; omega⟩⟩
            rw [hstep, h]
            simp [failEvents_cons]
          · refine ⟨e :: errs, Or.inr ⟨?_, by simp; omega⟩⟩
            rw [hstep, h]
            have hne : errs ≠ [] := by
              intro h0
              subst h0
              simp at hl
              omega
            obtain ⟨e2, rest, rfl⟩ := List.exists_cons_of_ne_nil hne
            simp [failEvents_cons, List.getLast?_cons_cons]
    · refine ⟨[], Or.inr ⟨?_, by simp; omega⟩⟩
      simp [uploadPartLoop, hle, failEvents_nil]

theorem uploadPart_shape (cfg : Config) (svc : S3) (resp : CreateMultipartUploadOutput)
    (fileBytes : List Nat) (pn : Nat) (tr : List Event) :
    ∃ errs : List Error,
      (∃ out, uploadPart cfg svc resp fileBytes pn tr =
          some ((some ⟨out.ETag, pn⟩, none),
            tr ++ failEvents (partInputOf resp fileBytes pn) errs ++
              [Event.UploadPart (partInputOf resp fileBytes pn) (.ok out)]) ∧
        errs.length < cfg.maxRetries) ∨
      (uploadPart cfg svc resp fileBytes pn tr =
          some ((none, errs.getLast?), tr ++ failEvents (partInputOf resp fileBytes pn) errs) ∧
        errs.length = cfg.maxRetries) := by
  obtain ⟨errs, h⟩ := uploadPartLoop_shape cfg svc (partInputOf resp fileBytes pn) pn
    (cfg.maxRetries + 1) 1 tr (by omega) (by omega)
  refine ⟨errs, ?_⟩
  rcases h with ⟨out, h, hl⟩ | ⟨h, hl⟩
  · exact Or.inl ⟨out, h, by omega⟩
  · exact Or.inr ⟨h, by omega⟩

theorem okUploads_append (xs ys : List Event) :
    okUploads (xs ++ ys) = okUploads xs ++ okUploads ys := by
  induction xs with
  | nil => rfl
  | cons x xs ih =>
    cases x with
    | UploadPart i r =>
      cases r with
      | ok o => simp [okUploads, ih]
      | error e => simp [okUploads, ih]
    | CreateMultipartUpload i r => simp [okUploads, ih]
    | CompleteMultipartUpload i r => simp [okUploads, ih]
    | AbortMultipartUpload i r => simp [okUploads, ih]

theorem okUploads_failEvents (pi : UploadPartInput) (errs : List Error) :
    okUploads (failEvents pi errs) = [] := by
  induction errs with
  | nil => rfl
  | cons e errs ih => simpa [failEvents_cons, okUploads] using ih

theorem isUploadPart_failEvents (pi : UploadPartInput) (errs : List Error) :
    ∀ e ∈ failEvents pi errs, e.isUploadPart = true := by
  intro e he
  simp only [failEvents, List.mem_map] at he
  obtain ⟨x, _, rfl⟩ := he
  rfl

/-- One round of the loop whose part is uploaded. -/
theorem uploadParts_next (cfg : Config) (svc : S3) (resp : CreateMultipartUploadOutput)
    (binaryFile : List Nat) (fuel curr remaining partNumber : Nat)
    (completedParts : List (Option CompletedPart)) (tr tr1 : List Event)
    (completedPart : Option CompletedPart) (hr : remaining ≠ 0)
    (hup : uploadPart cfg svc resp
      ((binaryFile.drop curr).take
        (if remaining < cfg.maxPartSize then remaining else cfg.maxPartSize))
      partNumber tr = some ((completedPart, none), tr1)) :
    uploadParts cfg svc resp binaryFile (fuel + 1) curr remaining partNumber completedParts tr =
      uploadParts cfg svc resp binaryFile fuel
        (curr + (if remaining < cfg.maxPartSize then remaining else cfg.maxPartSize))
        (remaining - (if remaining < cfg.maxPartSize then remaining else cfg.maxPartSize))
        (partNumber + 1) (completedParts ++ [completedPart]) tr1 := by
  rw [uploadParts]
  simp only [hr, ne_eq, not_false_eq_true, if_true, hup]

/-- One round of the loop whose part fails: the abort call and the answer. -/
theorem uploadParts_fail (cfg : Config) (svc : S3) (resp : CreateMultipartUploadOutput)
    (binaryFile : List Nat) (fuel curr remaining partNumber : Nat)
    (completedParts : List (Option CompletedPart)) (tr tr1 : List Event)
    (completedPart : Option CompletedPart) (err : Error) (hr : remaining ≠ 0)
    (hup : uploadPart cfg svc resp
      ((binaryFile.drop curr).take
        (if remaining < cfg.maxPartSize then remaining else cfg.maxPartSize))
      partNumber tr = some ((completedPart, some err), tr1)) :
    uploadParts cfg svc resp binaryFile (fuel + 1) curr remaining partNumber completedParts tr =
      some (.error abortResponse,
        tr1 ++ [Event.AbortMultipartUpload ⟨resp.Bucket, resp.Key, resp.UploadId⟩
          (svc.AbortMultipartUpload tr1 ⟨resp.Bucket, resp.Key, resp.UploadId⟩)]) := by
  rw [uploadParts]
  simp only [hr, ne_eq, not_false_eq_true, if_true, hup, abortMultipartUpload]

theorem uploadParts_done (cfg : Config) (svc : S3) (resp : CreateMultipartUploadOutput)
    (binaryFile : List Nat) (fuel curr partNumber : Nat)
    (completedParts : List (Option CompletedPart)) (tr : List Event) :
    uploadParts cfg svc resp binaryFile (fuel + 1) curr 0 partNumber completedParts tr =
      some (.ok completedParts, tr) := by
  simp [uploadParts]

/-- The shape of every finished run of the part loop.  The calls it makes are
upload-part calls `ups`, followed by one abort call when a part is given up.
When it falls through, the slices uploaded are those of `partPlan`, numbered
consecutively, and the completed parts are the answers of the successful
calls, in order.  When it gives up, the last `maxRetries` calls failed for one
input of this session. -/
theorem uploadParts_shape (cfg : Config) (svc : S3) (resp : CreateMultipartUploadOutput)
    (binaryFile : List Nat) :
    ∀ (fuel curr remaining pn : Nat) (cps : List (Option CompletedPart)) (tr : List Event)
      (res : Except Response (List (Option CompletedPart))) (tr' : List Event),
      uploadParts cfg svc resp binaryFile fuel curr remaining pn cps tr = some (res, tr') →
      ∃ ups, (∀ e ∈ ups, e.isUploadPart = true) ∧
        ((∃ parts, res = .ok parts ∧ tr' = tr ++ ups ∧
            ∃ plan, partPlan cfg fuel curr remaining = some plan ∧
              (0 < cfg.maxRetries →
                (okUploads ups).map (fun io => (io.1.PartNumber, io.1.Body)) =
                    planSlices binaryFile pn plan ∧
                  parts = cps ++ (okUploads ups).map
                    (fun io => some (CompletedPart.mk io.2.ETag io.1.PartNumber)))) ∨
          (res = .error abortResponse ∧
            ∃ ups0 inp errs, ups = ups0 ++ failEvents inp errs ∧
              errs.length = cfg.maxRetries ∧ errs ≠ [] ∧
              inp.Bucket = resp.Bucket ∧ inp.Key = resp.Key ∧ inp.UploadId = resp.UploadId ∧
              tr' = tr ++ ups ++
                [Event.AbortMultipartUpload ⟨resp.Bucket, resp.Key, resp.UploadId⟩
                  (svc.AbortMultipartUpload (tr ++ ups)
                    ⟨resp.Bucket, resp.Key, resp.UploadId⟩)])) := by
  intro fuel
  induction fuel with
  | zero => intro curr remaining pn cps tr res tr' h; simp [uploadParts] at h
  | succ fuel ih =>
    intro curr remaining pn cps tr res tr' h
    by_cases hr : remaining = 0
    · subst hr
      rw [uploadParts_done] at h
      simp only [Option.some.injEq, Prod.mk.injEq] at h
      obtain ⟨rfl, rfl⟩ := h
      refine ⟨[], by simp, Or.inl ⟨cps, rfl, by simp, [], by simp [partPlan], ?_⟩⟩
      intro _
      simp [okUploads, planSlices]
    · obtain ⟨errs, hup⟩ := uploadPart_shape cfg svc resp
        ((binaryFile.drop curr).take
          (if remaining < cfg.maxPartSize then remaining else cfg.maxPartSize)) pn tr
      obtain ⟨pi, hpi⟩ : ∃ pi, pi = partInputOf resp ((binaryFile.drop curr).take
          (if remaining < cfg.maxPartSize then remaining else cfg.maxPartSize)) pn := ⟨_, rfl⟩
      rw [← hpi] at hup
      rcases hup with ⟨out, hup, hlen⟩ | ⟨hup, hlen⟩
      · -- the part is uploaded after `errs.length` failed calls
        rw [uploadParts_next cfg svc resp binaryFile fuel curr remaining pn cps tr _ _ hr hup] at h
        obtain ⟨ups, hups, hcase⟩ := ih _ _ _ _ _ _ _ h
        refine ⟨failEvents pi errs ++ [Event.UploadPart pi (.ok out)] ++ ups, ?_, ?_⟩
        · intro e he
          simp only [List.mem_append, List.mem_singleton] at he
          rcases he with (he | rfl) | he
          · exact isUploadPart_failEvents _ _ e he
          · rfl
          · exact hups e he
        · rcases hcase with ⟨parts, rfl, htr, plan, hplan, hlink⟩ |
            ⟨rfl, ups0, inp, errs2, hu, hl2, hne, hb, hk, hi, htr⟩
          · refine Or.inl ⟨parts, rfl, by simp [htr],
              (curr, if remaining < cfg.maxPartSize then remaining else cfg.maxPartSize) :: plan,
              ?_, ?_⟩
            · simp [partPlan, hr, hplan]
            · intro hpos
              obtain ⟨h1, h2⟩ := hlink hpos
              constructor
              · simp [okUploads_append, okUploads_failEvents, okUploads, planSlices, h1,
                  hpi, partInputOf]
              · simp [okUploads_append, okUploads_failEvents, okUploads, h2, hpi, partInputOf]
          · refine Or.inr ⟨rfl, failEvents pi errs ++ [Event.UploadPart pi (.ok out)] ++ ups0,
              inp, errs2, by simp [hu], hl2, hne, hb, hk, hi, ?_⟩
            rw [htr]
            simp
      · cases hlast : errs.getLast? with
        | none =>
          -- no try was made at all (`maxRetries = 0`): the loop goes on with a nil part
          have hnil : errs = [] := List.getLast?_eq_none_iff.mp hlast
          subst hnil
          rw [hlast, failEvents_nil, List.append_nil] at hup
          rw [uploadParts_next cfg svc resp binaryFile fuel curr remaining pn cps tr _ _ hr hup]
            at h
          obtain ⟨ups, hups, hcase⟩ := ih _ _ _ _ _ _ _ h
          refine ⟨ups, hups, ?_⟩
          rcases hcase with ⟨parts, rfl, htr, plan, hplan, _⟩ | hcase
          · refine Or.inl ⟨parts, rfl, htr,
              (curr, if remaining < cfg.maxPartSize then remaining else cfg.maxPartSize) :: plan,
              ?_, ?_⟩
            · simp [partPlan, hr, hplan]
            · intro hpos
              simp at hlen
              omega
          · exact Or.inr hcase
        | some e =>
          rw [hlast] at hup
          rw [uploadParts_fail cfg svc resp binaryFile fuel curr remaining pn cps tr _ _ e hr hup]
            at h
          simp only [Option.some.injEq, Prod.mk.injEq] at h
          obtain ⟨rfl, rfl⟩ := h
          have hne : errs ≠ [] := by
            intro h0
            subst h0
            simp at hlast
          refine ⟨failEvents pi errs, isUploadPart_failEvents _ _, Or.inr ⟨rfl, [], pi, errs,
            by simp, hlen, hne, by rw [hpi]; rfl, by rw [hpi]; rfl, by rw [hpi]; rfl, ?_⟩⟩
          simp

theorem uploadPart_total (cfg : Config) (svc : S3) (resp : CreateMultipartUploadOutput)
    (fileBytes : List Nat) (pn : Nat) (tr : List Event) :
    ∃ r, uploadPart cfg svc resp fileBytes pn tr = some r := by
  obtain ⟨errs, h⟩ := uploadPart_shape cfg svc resp fileBytes pn tr
  rcases h with ⟨out, h, _⟩ | ⟨h, _⟩
  · exact ⟨_, h⟩
  · exact ⟨_, h⟩

/-- The part loop ends: every round takes at least one byte off `remaining`. -/
theorem uploadParts_total (cfg : Config) (svc : S3) (resp : CreateMultipartUploadOutput)
    (binaryFile : List Nat) :
    ∀ (fuel curr remaining pn : Nat) (cps : List (Option CompletedPart)) (tr : List Event),
      (remaining ≠ 0 → 0 < cfg.maxPartSize) → remaining < fuel →
      ∃ r, uploadParts cfg svc resp binaryFile fuel curr remaining pn cps tr = some r := by
  intro fuel
  induction fuel with
  | zero => intro curr remaining pn cps tr _ h; omega
  | succ fuel ih =>
    intro curr remaining pn cps tr hm hlt
    by_cases hr : remaining = 0
    · subst hr
      exact ⟨_, uploadParts_done cfg svc resp binaryFile fuel curr pn cps tr⟩
    · have hpos := hm hr
      obtain ⟨⟨⟨cp, err⟩, tr1⟩, hup⟩ := uploadPart_total cfg svc resp
        ((binaryFile.drop curr).take
          (if remaining < cfg.maxPartSize then remaining else cfg.maxPartSize)) pn tr
      cases err with
      | some e =>
        exact ⟨_, uploadParts_fail cfg svc resp binaryFile fuel curr remaining pn cps tr tr1 cp e
          hr hup⟩
      | none =>
        rw [uploadParts_next cfg svc resp binaryFile fuel curr remaining pn cps tr tr1 cp hr hup]
        apply ih
        · intro _; exact hpos
        · split <;> omega

theorem partPlan_total (cfg : Config) :
    ∀ (fuel curr remaining : Nat), (remaining ≠ 0 → 0 < cfg.maxPartSize) → remaining < fuel →
      ∃ plan, partPlan cfg fuel curr remaining = some plan := by
  intro fuel curr remaining hm hlt
  by_cases hr : remaining = 0
  · subst hr
    obtain ⟨fuel, rfl⟩ : ∃ f, fuel = f + 1 := ⟨fuel - 1, by omega⟩
    exact ⟨[], by simp [partPlan]⟩
  · obtain ⟨plan, h, _⟩ := partPlan_inv cfg (hm hr) fuel curr remaining hlt
    exact ⟨plan, h⟩

/-! ### The steps for one file and the loop over the files -/

/-- The shape of every finished run of the steps for one file. -/
theorem uploadFile_shape (cfg : Config) (env : Env) (svc : S3) (formFile : FileHeader)
    (tr : List Event) (res : Except Response String) (tr' : List Event)
    (h : uploadFile cfg env svc formFile tr = some (res, tr')) :
    (res = .error (.failure 500 "Failed read file" " readFile(formFile)") ∧ tr' = tr) ∨
    (∃ e, res = .error (.failure 500 "Failed CreateMultipartUpload"
          "svc.CreateMultipartUpload(input)") ∧
        tr' = tr ++ [Event.CreateMultipartUpload
          (createInputOf env formFile formFile.content) (.error e)]) ∨
    (∃ resp ups, (∀ e ∈ ups, e.isUploadPart = true) ∧
      ((res = .error abortResponse ∧
          ∃ ups0 inp errs a, ups = ups0 ++ failEvents inp errs ∧
            errs.length = cfg.maxRetries ∧ errs ≠ [] ∧
            inp.Bucket = resp.Bucket ∧ inp.Key = resp.Key ∧ inp.UploadId = resp.UploadId ∧
            tr' = tr ++ Event.CreateMultipartUpload
                (createInputOf env formFile formFile.content) (.ok resp) :: ups ++
              [Event.AbortMultipartUpload ⟨resp.Bucket, resp.Key, resp.UploadId⟩ a]) ∨
        (∃ parts cres,
          tr' = tr ++ Event.CreateMultipartUpload
              (createInputOf env formFile formFile.content) (.ok resp) :: ups ++
            [Event.CompleteMultipartUpload ⟨resp.Bucket, resp.Key, resp.UploadId, parts⟩ cres] ∧
          ((∃ out, cres = .ok out ∧ res = .ok out.Location) ∨
            (∃ e, cres = .error e ∧ res = .error (.failure 500 "Failed completeMultipartUpload"
              "completeMultipartUpload(svc, resp, completedParts)"))) ∧
          ∃ plan, partPlan cfg (formFile.Size + 1) 0 formFile.Size = some plan ∧
            (0 < cfg.maxRetries →
              (okUploads ups).map (fun io => (io.1.PartNumber, io.1.Body)) =
                  planSlices formFile.content 1 plan ∧
                parts = (okUploads ups).map
                  (fun io => some (CompletedPart.mk io.2.ETag io.1.PartNumber)))))) := by
  unfold uploadFile readFile at h
  cases hread : formFile.readErr with
  | some e =>
    simp only [hread, Option.some.injEq, Prod.mk.injEq] at h
    exact Or.inl ⟨h.1.symm, h.2.symm⟩
  | none =>
    simp only [hread] at h
    cases hc : svc.CreateMultipartUpload tr (createInputOf env formFile formFile.content) with
    | error e =>
      simp only [hc, Option.some.injEq, Prod.mk.injEq] at h
      exact Or.inr (Or.inl ⟨e, h.1.symm, h.2.symm⟩)
    | ok resp =>
      simp only [hc] at h
      cases hp : uploadParts cfg svc resp formFile.content (formFile.Size + 1) 0 formFile.Size 1 []
          (tr ++ [Event.CreateMultipartUpload (createInputOf env formFile formFile.content)
            (.ok resp)]) with
      | none => simp [hp] at h
      | some r =>
        obtain ⟨pres, tr2⟩ := r
        obtain ⟨ups, hups, hcase⟩ := uploadParts_shape cfg svc resp formFile.content _ _ _ _ _ _ _ _ hp
        refine Or.inr (Or.inr ⟨resp, ups, hups, ?_⟩)
        rcases hcase with ⟨parts, rfl, htr, plan, hplan, hlink⟩ |
          ⟨rfl, ups0, inp, errs, hu, hl, hne, hb, hk, hi, htr⟩
        · simp only [hp, completeMultipartUpload] at h
          right
          cases hcomp : svc.CompleteMultipartUpload tr2
              ⟨resp.Bucket, resp.Key, resp.UploadId, parts⟩ with
          | ok out =>
            simp only [hcomp, Option.some.injEq, Prod.mk.injEq] at h
            refine ⟨parts, .ok out, ?_, Or.inl ⟨out, rfl, h.1.symm⟩, plan, hplan, ?_⟩
            · rw [← h.2, htr]; simp
            · intro hpos; simpa using hlink hpos
          | error e =>
            simp only [hcomp, Option.some.injEq, Prod.mk.injEq] at h
            refine ⟨parts, .error e, ?_, Or.inr ⟨e, rfl, h.1.symm⟩, plan, hplan, ?_⟩
            · rw [← h.2, htr]; simp
            · intro hpos; simpa using hlink hpos
        · simp only [hp, Option.some.injEq, Prod.mk.injEq] at h
          left
          refine ⟨h.1.symm, ups0, inp, errs,
            svc.AbortMultipartUpload
              (tr ++ [Event.CreateMultipartUpload (createInputOf env formFile formFile.content)
                (.ok resp)] ++ ups) ⟨resp.Bucket, resp.Key, resp.UploadId⟩,
            hu, hl, hne, hb, hk, hi, ?_⟩
          rw [← h.2, htr]; simp

theorem isAbort_of_isUploadPart (e : Event) (h : e.isUploadPart = true) : e.isAbort = false := by
  cases e <;> simp_all [Event.isUploadPart, Event.isAbort]

theorem isComplete_of_isUploadPart (e : Event) (h : e.isUploadPart = true) :
    e.isComplete = false := by
  cases e <;> simp_all [Event.isUploadPart, Event.isComplete]

/-- The steps for one file either make no abort call and do not answer with
`abortResponse`, or answer with `abortResponse` after a trace of the form
create, upload-part calls (the last `maxRetries` of them failed calls for one
input of the session), abort. -/
theorem uploadFile_abort_shape (cfg : Config) (env : Env) (svc : S3) (formFile : FileHeader)
    (tr : List Event) (res : Except Response String) (tr' : List Event)
    (h : uploadFile cfg env svc formFile tr = some (res, tr')) :
    (res ≠ .error abortResponse ∧ ∃ new, tr' = tr ++ new ∧ ∀ e ∈ new, e.isAbort = false) ∨
    (res = .error abortResponse ∧
      ∃ ci resp ups0 inp errs a,
        tr' = tr ++ Event.CreateMultipartUpload ci (.ok resp) :: (ups0 ++ failEvents inp errs) ++
          [Event.AbortMultipartUpload ⟨resp.Bucket, resp.Key, resp.UploadId⟩ a] ∧
        (∀ e ∈ ups0, e.isUploadPart = true) ∧
        errs.length = cfg.maxRetries ∧ errs ≠ [] ∧
        inp.Bucket = resp.Bucket ∧ inp.Key = resp.Key ∧ inp.UploadId = resp.UploadId) := by
  rcases uploadFile_shape cfg env svc formFile tr res tr' h with
    ⟨rfl, rfl⟩ | ⟨e, rfl, rfl⟩ | ⟨resp, ups, hups, hcase⟩
  · exact Or.inl ⟨by simp [abortResponse], [], by simp, by simp⟩
  · exact Or.inl ⟨by simp [abortResponse], _, rfl, by simp [Event.isAbort]⟩
  · rcases hcase with ⟨rfl, ups0, inp, errs, a, rfl, hl, hne, hb, hk, hi, rfl⟩ |
      ⟨parts, cres, rfl, hres, _⟩
    · refine Or.inr ⟨rfl, _, resp, ups0, inp, errs, a, rfl, ?_, hl, hne, hb, hk, hi⟩
      intro e he
      exact hups e (List.mem_append_left _ he)
    · refine Or.inl ⟨?_, _, by rw [List.append_assoc], ?_⟩
      · rcases hres with ⟨out, _, rfl⟩ | ⟨e, _, rfl⟩
        · simp
        · simp [abortResponse]
      · intro e he
        simp only [List.cons_append, List.mem_cons, List.mem_append, List.mem_singleton,
          List.not_mem_nil, or_false] at he
        rcases he with he | he | he
        · rw [he]; rfl
        · exact isAbort_of_isUploadPart e (hups e he)
        · rw [he]; rfl

/-- The same for the loop over the files: earlier files make no abort call. -/
theorem uploadFiles_abort_shape (cfg : Config) (env : Env) (svc : S3) :
    ∀ (files : List FileHeader) (sp : List String) (pn : Nat) (tr : List Event)
      (res : Except Response (List String)) (tr' : List Event),
      uploadFiles cfg env svc files sp pn tr = some (res, tr') →
      (res ≠ .error abortResponse ∧ ∃ new, tr' = tr ++ new ∧ ∀ e ∈ new, e.isAbort = false) ∨
      (res = .error abortResponse ∧
        ∃ pre ci resp ups0 inp errs a,
          tr' = tr ++ pre ++
            Event.CreateMultipartUpload ci (.ok resp) :: (ups0 ++ failEvents inp errs) ++
            [Event.AbortMultipartUpload ⟨resp.Bucket, resp.Key, resp.UploadId⟩ a] ∧
          (∀ e ∈ pre, e.isAbort = false) ∧
          (∀ e ∈ ups0, e.isUploadPart = true) ∧
          errs.length = cfg.maxRetries ∧ errs ≠ [] ∧
          inp.Bucket = resp.Bucket ∧ inp.Key = resp.Key ∧ inp.UploadId = resp.UploadId) := by
  intro files
  induction files with
  | nil =>
    intro sp pn tr res tr' h
    simp only [uploadFiles, Option.some.injEq, Prod.mk.injEq] at h
    obtain ⟨rfl, rfl⟩ := h
    exact Or.inl ⟨by simp, [], by simp, by simp⟩
  | cons f fs ih =>
    intro sp pn tr res tr' h
    rw [uploadFiles] at h
    cases hf : uploadFile cfg env svc f tr with
    | none => simp [hf] at h
    | some r =>
      obtain ⟨fres, tr1⟩ := r
      have hshape := uploadFile_abort_shape cfg env svc f tr fres tr1 hf
      cases fres with
      | error r =>
        simp only [hf, Option.some.injEq, Prod.mk.injEq] at h
        obtain ⟨rfl, rfl⟩ := h
        rcases hshape with ⟨hne, new, hnew, hno⟩ | ⟨hr, ci, resp, ups0, inp, errs, a, htr, hrest⟩
        · refine Or.inl ⟨?_, new, hnew, hno⟩
          intro hc
          apply hne
          simp only [Except.error.injEq] at hc ⊢
          exact hc
        · refine Or.inr ⟨?_, [], ci, resp, ups0, inp, errs, a, by simpa using htr, by simp, hrest⟩
          simp only [Except.error.injEq] at hr ⊢
          exact hr
      | ok loc =>
        simp only [hf] at h
        rcases hshape with ⟨_, new, hnew, hno⟩ | ⟨hr, _⟩
        · subst hnew
          rcases ih _ _ _ _ _ h with ⟨hne, new2, hnew2, hno2⟩ |
            ⟨hr, pre, ci, resp, ups0, inp, errs, a, htr, hpre, hrest⟩
          · refine Or.inl ⟨hne, new ++ new2, by rw [hnew2, List.append_assoc], ?_⟩
            intro e he
            rcases List.mem_append.mp he with he | he
            · exact hno e he
            · exact hno2 e he
          · refine Or.inr ⟨hr, new ++ pre, ci, resp, ups0, inp, errs, a, ?_, ?_, hrest⟩
            · rw [htr]; simp
            · intro e he
              rcases List.mem_append.mp he with he | he
              · exact hno e he
              · exact hpre e he
        · simp at hr

theorem uploadFile_total (cfg : Config) (env : Env) (svc : S3) (formFile : FileHeader)
    (tr : List Event) (hm : formFile.Size ≠ 0 → 0 < cfg.maxPartSize) :
    ∃ r, uploadFile cfg env svc formFile tr = some r := by
  unfold uploadFile readFile
  cases formFile.readErr with
  | some e => exact ⟨_, rfl⟩
  | none =>
    simp only
    cases svc.CreateMultipartUpload tr (createInputOf env formFile formFile.content) with
    | error e => exact ⟨_, rfl⟩
    | ok resp =>
      simp only
      obtain ⟨⟨pres, tr2⟩, hp⟩ := uploadParts_total cfg svc resp formFile.content
        (formFile.Size + 1) 0 formFile.Size 1 []
        (tr ++ [Event.CreateMultipartUpload (createInputOf env formFile formFile.content)
          (.ok resp)]) hm (by omega)
      rw [hp]
      cases pres with
      | error r => exact ⟨_, rfl⟩
      | ok parts =>
        simp only [completeMultipartUpload]
        cases svc.CompleteMultipartUpload tr2 ⟨resp.Bucket, resp.Key, resp.UploadId, parts⟩ with
        | error e => exact ⟨_, rfl⟩
        | ok out => exact ⟨_, rfl⟩

theorem uploadFiles_total (cfg : Config) (env : Env) (svc : S3) :
    ∀ (files : List FileHeader) (sp : List String) (pn : Nat) (tr : List Event),
      (∀ f ∈ files, f.Size ≠ 0 → 0 < cfg.maxPartSize) →
      ∃ r, uploadFiles cfg env svc files sp pn tr = some r := by
  intro files
  induction files with
  | nil => intro sp pn tr _; exact ⟨_, rfl⟩
  | cons f fs ih =>
    intro sp pn tr hm
    obtain ⟨⟨fres, tr1⟩, hf⟩ := uploadFile_total cfg env svc f tr (hm f (List.mem_cons_self f fs))
    rw [uploadFiles, hf]
    cases fres with
    | error r => exact ⟨_, rfl⟩
    | ok loc => exact ih _ _ _ (fun g hg => hm g (List.mem_cons_of_mem f hg))

/-- The handler always answers: a file that passes the validator is at most
`maxPartSize` bytes long, so its part loop ends. -/
theorem Upload_total (cfg : Config) (env : Env) (svc : S3) (files : List FileHeader) :
    ∃ r tr, Upload cfg env svc files = some (r, tr) := by
  unfold Upload
  cases hv : validateUploadFiles cfg files with
  | mk valid message =>
    cases valid with
    | false => exact ⟨_, _, rfl⟩
    | true =>
      simp only
      cases env.credsErr with
      | some e => exact ⟨_, _, rfl⟩
      | none =>
        simp only
        cases env.sessionErr with
        | some e => exact ⟨_, _, rfl⟩
        | none =>
          simp only
          have hsize : ∀ f ∈ files, f.Size ≠ 0 → 0 < cfg.maxPartSize := by
            have hall : validateUploadFiles cfg files = (true, "ok") := by
              have hfst : ∀ fs : List FileHeader, (validateUploadFiles cfg fs).1 = true →
                  validateUploadFiles cfg fs = (true, "ok") := by
                intro fs
                induction fs with
                | nil => intro _; rfl
                | cons g gs ihg =>
                  intro hg
                  rw [validateUploadFiles] at hg ⊢
                  split at hg
                  · simp at hg
                  · split at hg
                    · simp at hg
                    · rename_i h1 h2
                      rw [if_neg h1, if_neg h2]
                      exact ihg hg
              exact hfst files (by rw [hv])
            intro f hf hne
            have := ((validateUploadFiles_all cfg files).mp hall f hf).1
            omega
          obtain ⟨⟨res, tr⟩, hu⟩ := uploadFiles_total cfg env svc files
            (List.replicate files.length "") 0 [] hsize
          rw [hu]
          cases res with
          | error r => exact ⟨_, _, rfl⟩
          | ok paths => exact ⟨_, _, rfl⟩

/-- The shape of the handler's trace with respect to abort calls. -/
theorem Upload_abort_shape (cfg : Config) (env : Env) (svc : S3) (files : List FileHeader)
    (r : Response) (tr : List Event) (h : Upload cfg env svc files = some (r, tr)) :
    (r ≠ abortResponse ∧ ∀ e ∈ tr, e.isAbort = false) ∨
    (r = abortResponse ∧
      ∃ pre ci resp ups0 inp errs a,
        tr = pre ++
          Event.CreateMultipartUpload ci (.ok resp) :: (ups0 ++ failEvents inp errs) ++
          [Event.AbortMultipartUpload ⟨resp.Bucket, resp.Key, resp.UploadId⟩ a] ∧
        (∀ e ∈ pre, e.isAbort = false) ∧
        (∀ e ∈ ups0, e.isUploadPart = true) ∧
        errs.length = cfg.maxRetries ∧ errs ≠ [] ∧
        inp.Bucket = resp.Bucket ∧ inp.Key = resp.Key ∧ inp.UploadId = resp.UploadId) := by
  unfold Upload at h
  cases hv : validateUploadFiles cfg files with
  | mk valid message =>
    rw [hv] at h
    cases valid with
    | false =>
      simp only [Option.some.injEq, Prod.mk.injEq] at h
      obtain ⟨rfl, rfl⟩ := h
      exact Or.inl ⟨by simp [abortResponse], by simp⟩
    | true =>
      simp only at h
      cases hce : env.credsErr with
      | some e =>
        simp only [hce, Option.some.injEq, Prod.mk.injEq] at h
        obtain ⟨rfl, rfl⟩ := h
        exact Or.inl ⟨by simp [abortResponse], by simp⟩
      | none =>
        simp only [hce] at h
        cases hse : env.sessionErr with
        | some e =>
          simp only [hse, Option.some.injEq, Prod.mk.injEq] at h
          obtain ⟨rfl, rfl⟩ := h
          exact Or.inl ⟨by simp [abortResponse], by simp⟩
        | none =>
          simp only [hse] at h
          cases hu : uploadFiles cfg env svc files (List.replicate files.length "") 0 [] with
          | none => simp [hu] at h
          | some x =>
            obtain ⟨res, tr1⟩ := x
            have hshape := uploadFiles_abort_shape cfg env svc files _ _ _ res tr1 hu
            cases res with
            | error r1 =>
              simp only [hu, Option.some.injEq, Prod.mk.injEq] at h
              obtain ⟨rfl, rfl⟩ := h
              rcases hshape with ⟨hne, new, hnew, hno⟩ | ⟨hr, hrest⟩
              · refine Or.inl ⟨fun hc => hne (by rw [hc]), ?_⟩
                simpa [hnew] using hno
              · refine Or.inr ⟨by simpa using hr, ?_⟩
                simpa using hrest
            | ok paths =>
              simp only [hu, Option.some.injEq, Prod.mk.injEq] at h
              obtain ⟨rfl, rfl⟩ := h
              rcases hshape with ⟨_, new, hnew, hno⟩ | ⟨hr, _⟩
              · refine Or.inl ⟨by simp [abortResponse], ?_⟩
                simpa [hnew] using hno
              · simp at hr

/-! ### The abort call -/

/-- The retry loop only uses the upload-part operation of the client. -/
theorem uploadPartLoop_congr (cfg : Config) (svc svc2 : S3) (pi : UploadPartInput) (pn : Nat)
    (hsame : svc2.UploadPart = svc.UploadPart) :
    ∀ (fuel tryNum : Nat) (tr : List Event),
      uploadPartLoop cfg svc2 pi pn fuel tryNum tr = uploadPartLoop cfg svc pi pn fuel tryNum tr := by
  intro fuel
  induction fuel with
  | zero => intro tryNum tr; rfl
  | succ fuel ih =>
    intro tryNum tr
    rw [uploadPartLoop, uploadPartLoop, hsame]
    split
    · cases svc.UploadPart tr pi with
      | ok out => rfl
      | error e =>
        simp only
        split
        · rfl
        · exact ih _ _
    · rfl

theorem countP_isAbort_eq_zero (l : List Event) (h : ∀ e ∈ l, e.isAbort = false) :
    l.countP Event.isAbort = 0 := by
  rw [List.countP_eq_zero]
  intro e he
  simp [h e he]

/-- C5. When `uploadPart` returns an error for the part in hand (the retries
are used up), the part loop makes exactly one more call, the abort call with
the bucket, key and upload id of the session, and leaves with the answer
`500 "Failed abortMultipartUpload"`: the same answer for every behaviour
`abort` of the abort call.  For the whole handler: either no abort call is
made, or the answer is that one and the trace ends with the create call of the
file, upload-part calls only (the last `maxRetries` of them failed calls for
one input of that session) and the single abort call of the request, carrying
the ids the create call returned; nothing follows the abort call. -/
theorem Upload_abort_once (cfg : Config) (env : Env) (svc : S3) (files : List FileHeader) :
    (∀ (abort : List Event → AbortMultipartUploadInput → Option Error)
        (resp : CreateMultipartUploadOutput) (binaryFile : List Nat)
        (fuel curr remaining partNumber : Nat) (completedParts : List (Option CompletedPart))
        (tr tr1 : List Event) (completedPart : Option CompletedPart) (err : Error),
      remaining ≠ 0 →
      uploadPart cfg svc resp
          ((binaryFile.drop curr).take
            (if remaining < cfg.maxPartSize then remaining else cfg.maxPartSize))
          partNumber tr = some ((completedPart, some err), tr1) →
      uploadParts cfg
          ⟨svc.CreateMultipartUpload, svc.UploadPart, svc.CompleteMultipartUpload, abort⟩
          resp binaryFile (fuel + 1) curr remaining partNumber completedParts tr =
        some (.error (.failure 500 "Failed abortMultipartUpload"
            "abortMultipartUpload(svc, resp)"),
          tr1 ++ [Event.AbortMultipartUpload ⟨resp.Bucket, resp.Key, resp.UploadId⟩
            (abort tr1 ⟨resp.Bucket, resp.Key, resp.UploadId⟩)])) ∧
    ∃ r tr, Upload cfg env svc files = some (r, tr) ∧
      ((r ≠ .failure 500 "Failed abortMultipartUpload" "abortMultipartUpload(svc, resp)" ∧
          tr.countP Event.isAbort = 0) ∨
        (r = .failure 500 "Failed abortMultipartUpload" "abortMultipartUpload(svc, resp)" ∧
          tr.countP Event.isAbort = 1 ∧
          ∃ pre ci resp ups inp errs a,
            tr = pre ++
              Event.CreateMultipartUpload ci (.ok resp) :: (ups ++ failEvents inp errs) ++
              [Event.AbortMultipartUpload ⟨resp.Bucket, resp.Key, resp.UploadId⟩ a] ∧
            (∀ e ∈ ups, e.isUploadPart = true) ∧
            errs.length = cfg.maxRetries ∧ errs ≠ [] ∧
            inp.Bucket = resp.Bucket ∧ inp.Key = resp.Key ∧ inp.UploadId = resp.UploadId)) := by
  constructor
  · intro abort resp binaryFile fuel curr remaining partNumber completedParts tr tr1
      completedPart err hr hup
    have hup2 : uploadPart cfg
        ⟨svc.CreateMultipartUpload, svc.UploadPart, svc.CompleteMultipartUpload, abort⟩ resp
        ((binaryFile.drop curr).take
          (if remaining < cfg.maxPartSize then remaining else cfg.maxPartSize))
        partNumber tr = some ((completedPart, some err), tr1) := by
      rw [← hup]
      unfold uploadPart
      exact uploadPartLoop_congr cfg svc
        ⟨svc.CreateMultipartUpload, svc.UploadPart, svc.CompleteMultipartUpload, abort⟩
        _ _ rfl _ _ _
    exact uploadParts_fail cfg _ resp binaryFile fuel curr remaining partNumber completedParts
      tr tr1 completedPart err hr hup2
  · obtain ⟨r, tr, h⟩ := Upload_total cfg env svc files
    refine ⟨r, tr, h, ?_⟩
    rcases Upload_abort_shape cfg env svc files r tr h with ⟨hne, hno⟩ |
      ⟨hr, pre, ci, resp, ups, inp, errs, a, htr, hpre, hups, hrest⟩
    · exact Or.inl ⟨hne, countP_isAbort_eq_zero tr hno⟩
    · refine Or.inr ⟨hr, ?_, pre, ci, resp, ups, inp, errs, a, htr, hups, hrest⟩
      rw [htr]
      have h1 : (ups ++ failEvents inp errs).countP Event.isAbort = 0 := by
        apply countP_isAbort_eq_zero
        intro e he
        rcases List.mem_append.mp he with he | he
        · exact isAbort_of_isUploadPart e (hups e he)
        · exact isAbort_of_isUploadPart e (isUploadPart_failEvents inp errs e he)
      rw [List.countP_append, List.countP_append, List.countP_cons, h1,
        countP_isAbort_eq_zero pre hpre]
      simp [Event.isAbort]

/-- An upload whose only part fails three times: one abort call, made last. -/
theorem Upload_abort_once_witness :
    Upload consts env0 (svcFlaky 3) [smallPng] =
      some (.failure 500 "Failed abortMultipartUpload" "abortMultipartUpload(svc, resp)",
        [Event.CreateMultipartUpload ⟨"bucket", "/media/now-a.png", "application/octet-stream"⟩
            (.ok ⟨"bucket", "/media/now-a.png", "upload-1"⟩),
          Event.UploadPart ⟨[1, 2, 3], "bucket", "/media/now-a.png", 1, "upload-1", 3⟩
            (.error "timeout"),
          Event.UploadPart ⟨[1, 2, 3], "bucket", "/media/now-a.png", 1, "upload-1", 3⟩
            (.error "timeout"),
          Event.UploadPart ⟨[1, 2, 3], "bucket", "/media/now-a.png", 1, "upload-1", 3⟩
            (.error "timeout"),
          Event.AbortMultipartUpload ⟨"bucket", "/media/now-a.png", "upload-1"⟩ none]) ∧
    (∃ r tr, Upload consts env0 (svcFlaky 3) [smallPng] = some (r, tr) ∧
      ((r ≠ .failure 500 "Failed abortMultipartUpload" "abortMultipartUpload(svc, resp)" ∧
          tr.countP Event.isAbort = 0) ∨
        (r = .failure 500 "Failed abortMultipartUpload" "abortMultipartUpload(svc, resp)" ∧
          tr.countP Event.isAbort = 1 ∧
          ∃ pre ci resp ups inp errs a,
            tr = pre ++
              Event.CreateMultipartUpload ci (.ok resp) :: (ups ++ failEvents inp errs) ++
              [Event.AbortMultipartUpload ⟨resp.Bucket, resp.Key, resp.UploadId⟩ a] ∧
            (∀ e ∈ ups, e.isUploadPart = true) ∧
            errs.length = consts.maxRetries ∧ errs ≠ [] ∧
            inp.Bucket = resp.Bucket ∧ inp.Key = resp.Key ∧ inp.UploadId = resp.UploadId))) ∧
    uploadParts consts
        ⟨(svcFlaky 3).CreateMultipartUpload, (svcFlaky 3).UploadPart,
          (svcFlaky 3).CompleteMultipartUpload, fun _ _ => some "abort failed"⟩
        resp0 [1, 2, 3] (0 + 1) 0 3 1 [] [] =
      some (.error (.failure 500 "Failed abortMultipartUpload"
          "abortMultipartUpload(svc, resp)"),
        failEvents (partInputOf resp0 [1, 2, 3] 1) ["timeout", "timeout", "timeout"] ++
          [Event.AbortMultipartUpload ⟨resp0.Bucket, resp0.Key, resp0.UploadId⟩
            (some "abort failed")]) :=
  ⟨rfl, (Upload_abort_once consts env0 (svcFlaky 3) [smallPng]).2,
    (Upload_abort_once consts env0 (svcFlaky 3) [smallPng]).1 (fun _ _ => some "abort failed")
      resp0 [1, 2, 3] 0 0 3 1 [] [] _ none "timeout" (by decide) rfl⟩

/-! ### Rejected batches and the answers of the handler -/

theorem validateUploadFiles_cases (cfg : Config) (files : List FileHeader) :
    validateUploadFiles cfg files = (true, "ok") ∨
    validateUploadFiles cfg files = (false, "File too large") ∨
    validateUploadFiles cfg files = (false, "Filetype is not supported") := by
  induction files with
  | nil => exact Or.inl rfl
  | cons f fs ih =>
    rw [validateUploadFiles]
    split
    · exact Or.inr (Or.inl rfl)
    · split
      · exact Or.inr (Or.inr rfl)
      · exact ih

/-- C6. When some file of the batch is over the size limit or declares a type
other than `image/jpeg` and `image/png`, the handler answers with the single
failure `400` carrying the validator's message, and its trace is empty: no
create, upload-part, complete or abort call is made for any file. -/
theorem Upload_rejects_invalid (cfg : Config) (env : Env) (svc : S3) (files : List FileHeader)
    (h : ∃ f ∈ files, cfg.maxPartSize < f.Size ∨
      (f.contentType ≠ "image/jpeg" ∧ f.contentType ≠ "image/png")) :
    Upload cfg env svc files =
      some (.failure 400 (validateUploadFiles cfg files).2 "validateUploadFiles(form.Files)", []) ∧
    ((validateUploadFiles cfg files).2 = "File too large" ∨
      (validateUploadFiles cfg files).2 = "Filetype is not supported") := by
  have hnot : validateUploadFiles cfg files ≠ (true, "ok") := by
    intro hok
    obtain ⟨f, hf, hbad⟩ := h
    have := (validateUploadFiles_all cfg files).mp hok f hf
    rcases hbad with hbad | ⟨h1, h2⟩
    · omega
    · rcases this.2 with h3 | h3
      · exact h1 h3
      · exact h2 h3
  rcases validateUploadFiles_cases cfg files with hv | hv | hv
  · exact absurd hv hnot
  · simp [Upload, hv]
  · simp [Upload, hv]

/-- Scenario D: a valid file followed by a GIF. -/
theorem Upload_rejects_invalid_witness :
    Upload consts env0 (svcFlaky 0) [smallPng, gifFile] =
      some (.failure 400 "Filetype is not supported" "validateUploadFiles(form.Files)", []) ∧
    ((validateUploadFiles consts [smallPng, gifFile]).2 = "File too large" ∨
      (validateUploadFiles consts [smallPng, gifFile]).2 = "Filetype is not supported") :=
  Upload_rejects_invalid consts env0 (svcFlaky 0) [smallPng, gifFile]
    ⟨gifFile, by simp, Or.inr ⟨by decide, by decide⟩⟩

/-- Every failure answer of the loop over the files names one of five calls. -/
theorem uploadFiles_paths (cfg : Config) (env : Env) (svc : S3) :
    ∀ (files : List FileHeader) (sp : List String) (pn : Nat) (tr : List Event)
      (r : Response) (tr' : List Event),
      uploadFiles cfg env svc files sp pn tr = some (.error r, tr') →
      r.path ∈ [some " readFile(formFile)", some "svc.CreateMultipartUpload(input)",
        some "abortMultipartUpload(svc, resp)",
        some "completeMultipartUpload(svc, resp, completedParts)"] := by
  intro files
  induction files with
  | nil => intro sp pn tr r tr' h; simp [uploadFiles] at h
  | cons f fs ih =>
    intro sp pn tr r tr' h
    rw [uploadFiles] at h
    cases hf : uploadFile cfg env svc f tr with
    | none => simp [hf] at h
    | some x =>
      obtain ⟨fres, tr1⟩ := x
      cases fres with
      | ok loc =>
        simp only [hf] at h
        exact ih _ _ _ _ _ h
      | error r1 =>
        simp only [hf, Option.some.injEq, Prod.mk.injEq, Except.error.injEq] at h
        obtain ⟨rfl, rfl⟩ := h
        rcases uploadFile_shape cfg env svc f tr _ _ hf with
          ⟨hr, _⟩ | ⟨e, hr, _⟩ | ⟨resp, ups, _, hcase⟩
        · simp only [Except.error.injEq] at hr
          subst hr
          simp [Response.path]
        · simp only [Except.error.injEq] at hr
          subst hr
          simp [Response.path]
        · rcases hcase with ⟨hr, _⟩ | ⟨parts, cres, _, hres, _⟩
          · simp only [Except.error.injEq] at hr
            subst hr
            simp [Response.path, abortResponse]
          · rcases hres with ⟨out, _, hr⟩ | ⟨e, _, hr⟩
            · simp at hr
            · simp only [Except.error.injEq] at hr
              subst hr
              simp [Response.path]

/-- Every answer of the handler is the list of paths or a failure that names
one of seven calls; none of them is the upload of a part. -/
theorem Upload_paths (cfg : Config) (env : Env) (svc : S3) (files : List FileHeader)
    (r : Response) (tr : List Event) (h : Upload cfg env svc files = some (r, tr)) :
    r.path ∈ [none, some "validateUploadFiles(form.Files)", some "creds.Get()",
      some "session.NewSession(cfg)", some " readFile(formFile)",
      some "svc.CreateMultipartUpload(input)", some "abortMultipartUpload(svc, resp)",
      some "completeMultipartUpload(svc, resp, completedParts)"] := by
  unfold Upload at h
  cases hv : validateUploadFiles cfg files with
  | mk valid message =>
    rw [hv] at h
    cases valid with
    | false =>
      simp only [Option.some.injEq, Prod.mk.injEq] at h
      obtain ⟨rfl, rfl⟩ := h
      simp [Response.path]
    | true =>
      simp only at h
      cases hce : env.credsErr with
      | some e =>
        simp only [hce, Option.some.injEq, Prod.mk.injEq] at h
        obtain ⟨rfl, rfl⟩ := h
        simp [Response.path]
      | none =>
        simp only [hce] at h
        cases hse : env.sessionErr with
        | some e =>
          simp only [hse, Option.some.injEq, Prod.mk.injEq] at h
          obtain ⟨rfl, rfl⟩ := h
          simp [Response.path]
        | none =>
          simp only [hse] at h
          cases hu : uploadFiles cfg env svc files (List.replicate files.length "") 0 [] with
          | none => simp [hu] at h
          | some x =>
            obtain ⟨res, tr1⟩ := x
            cases res with
            | error r1 =>
              simp only [hu, Option.some.injEq, Prod.mk.injEq] at h
              obtain ⟨rfl, rfl⟩ := h
              have := uploadFiles_paths cfg env svc files _ _ _ _ _ hu
              simp only [List.mem_cons, List.mem_singleton, List.not_mem_nil, or_false] at this ⊢
              tauto
            | ok paths =>
              simp only [hu, Option.some.injEq, Prod.mk.injEq] at h
              obtain ⟨rfl, rfl⟩ := h
              simp [Response.path]

/-- C10, as the code has it.  When `uploadPart` returns an error for the part
in hand, the part loop leaves with the answer `500 "Failed
abortMultipartUpload"` whose `path` is `"abortMultipartUpload(svc, resp)"`:
the answer names the abort step.  For the whole handler, the answer is that
one exactly when an abort call was made, whatever the abort call returned, and
no answer of the handler names the upload of a part. -/
theorem Upload_part_failure_answer (cfg : Config) (env : Env) (svc : S3)
    (files : List FileHeader) :
    (∀ (resp : CreateMultipartUploadOutput) (binaryFile : List Nat)
        (fuel curr remaining partNumber : Nat) (completedParts : List (Option CompletedPart))
        (tr tr1 : List Event) (completedPart : Option CompletedPart) (err : Error),
      remaining ≠ 0 →
      uploadPart cfg svc resp
          ((binaryFile.drop curr).take
            (if remaining < cfg.maxPartSize then remaining else cfg.maxPartSize))
          partNumber tr = some ((completedPart, some err), tr1) →
      ∃ r tr2,
        uploadParts cfg svc resp binaryFile (fuel + 1) curr remaining partNumber
          completedParts tr = some (.error r, tr2) ∧
        r.message = some "Failed abortMultipartUpload" ∧
        r.path = some "abortMultipartUpload(svc, resp)") ∧
    ∃ r tr, Upload cfg env svc files = some (r, tr) ∧
      ((∃ e ∈ tr, e.isAbort = true) ↔
        r = .failure 500 "Failed abortMultipartUpload" "abortMultipartUpload(svc, resp)") ∧
      r.path ∈ [none, some "validateUploadFiles(form.Files)", some "creds.Get()",
        some "session.NewSession(cfg)", some " readFile(formFile)",
        some "svc.CreateMultipartUpload(input)", some "abortMultipartUpload(svc, resp)",
        some "completeMultipartUpload(svc, resp, completedParts)"] := by
  constructor
  · intro resp binaryFile fuel curr remaining partNumber completedParts tr tr1
      completedPart err hr hup
    exact ⟨abortResponse, _, uploadParts_fail cfg svc resp binaryFile fuel curr remaining
      partNumber completedParts tr tr1 completedPart err hr hup, rfl, rfl⟩
  · obtain ⟨r, tr, h⟩ := Upload_total cfg env svc files
    refine ⟨r, tr, h, ?_, Upload_paths cfg env svc files r tr h⟩
    rcases Upload_abort_shape cfg env svc files r tr h with ⟨hne, hno⟩ |
      ⟨hr, pre, ci, resp, ups, inp, errs, a, htr, _⟩
    · constructor
      · rintro ⟨e, he, hab⟩
        rw [hno e he] at hab
        exact absurd hab (by decide)
      · intro hr
        exact absurd hr hne
    · constructor
      · intro _
        exact hr
      · intro _
        refine ⟨Event.AbortMultipartUpload ⟨resp.Bucket, resp.Key, resp.UploadId⟩ a, ?_, rfl⟩
        rw [htr]
        simp

/-- C10 fails on the code: the only part of the upload fails all three tries,
and the answer names the abort step, both when the abort call succeeds and when
it fails. -/
theorem Upload_part_failure_blames_abort :
    (Upload consts env0 (svcFlaky 3) [smallPng]).map (fun x => (x.1.message, x.1.path)) =
      some (some "Failed abortMultipartUpload", some "abortMultipartUpload(svc, resp)") ∧
    (Upload consts env0 svcFlakyAbortFails [smallPng]).map (fun x => (x.1.message, x.1.path)) =
      some (some "Failed abortMultipartUpload", some "abortMultipartUpload(svc, resp)") ∧
    ((Upload consts env0 svcFlakyAbortFails [smallPng]).map (fun x => x.2)) =
      some [Event.CreateMultipartUpload ⟨"bucket", "/media/now-a.png", "application/octet-stream"⟩
            (.ok ⟨"bucket", "/media/now-a.png", "upload-1"⟩),
          Event.UploadPart ⟨[1, 2, 3], "bucket", "/media/now-a.png", 1, "upload-1", 3⟩
            (.error "timeout"),
          Event.UploadPart ⟨[1, 2, 3], "bucket", "/media/now-a.png", 1, "upload-1", 3⟩
            (.error "timeout"),
          Event.UploadPart ⟨[1, 2, 3], "bucket", "/media/now-a.png", 1, "upload-1", 3⟩
            (.error "timeout"),
          Event.AbortMultipartUpload ⟨"bucket", "/media/now-a.png", "upload-1"⟩
            (some "abort failed")] :=
  ⟨rfl, rfl, rfl⟩

/-- The upload whose only part fails three times, with the constants of the
source. -/
theorem Upload_part_failure_answer_witness :
    (∃ r tr2,
      uploadParts consts (svcFlaky 3) resp0 [1, 2, 3] (0 + 1) 0 3 1 [] [] =
        some (.error r, tr2) ∧
      r.message = some "Failed abortMultipartUpload" ∧
      r.path = some "abortMultipartUpload(svc, resp)") ∧
    ∃ r tr, Upload consts env0 svcFlakyAbortFails [smallPng] = some (r, tr) ∧
      ((∃ e ∈ tr, e.isAbort = true) ↔
        r = .failure 500 "Failed abortMultipartUpload" "abortMultipartUpload(svc, resp)") ∧
      r.path ∈ [none, some "validateUploadFiles(form.Files)", some "creds.Get()",
        some "session.NewSession(cfg)", some " readFile(formFile)",
        some "svc.CreateMultipartUpload(input)", some "abortMultipartUpload(svc, resp)",
        some "completeMultipartUpload(svc, resp, completedParts)"] :=
  ⟨(Upload_part_failure_answer consts env0 (svcFlaky 3) [smallPng]).1 resp0 [1, 2, 3] 0 0 3 1
      [] [] _ none "timeout" (by decide) rfl,
    (Upload_part_failure_answer consts env0 svcFlakyAbortFails [smallPng]).2⟩

/-! ### The part loop when every upload-part call succeeds -/

/-- A first try that succeeds. -/
theorem uploadPart_first_ok (cfg : Config) (svc : S3) (resp : CreateMultipartUploadOutput)
    (fileBytes : List Nat) (pn : Nat) (tr : List Event) (out : UploadPartOutput)
    (hr : 0 < cfg.maxRetries)
    (hok : svc.UploadPart tr (partInputOf resp fileBytes pn) = .ok out) :
    uploadPart cfg svc resp fileBytes pn tr =
      some ((some ⟨out.ETag, pn⟩, none),
        tr ++ [Event.UploadPart (partInputOf resp fileBytes pn) (.ok out)]) := by
  have := uploadPartLoop_ok cfg svc (partInputOf resp fileBytes pn) pn out [] (cfg.maxRetries + 1)
    1 tr (by simpa using hr) (by simp) (by simp) (by simpa [failEvents_nil] using hok)
  simpa [uploadPart, failEvents_nil] using this

/-- On a backend whose upload-part calls all succeed, with at least one try
allowed, the part loop makes exactly one call for each planned slice, in order
and numbered consecutively, and falls through with the part of each call. -/
theorem uploadParts_all_ok (cfg : Config) (svc : S3) (resp : CreateMultipartUploadOutput)
    (binaryFile : List Nat) (hr : 0 < cfg.maxRetries)
    (hupload : ∀ h i, ∃ o, svc.UploadPart h i = .ok o) :
    ∀ (fuel curr remaining pn : Nat) (cps : List (Option CompletedPart)) (tr : List Event)
      (plan : List (Nat × Nat)),
      partPlan cfg fuel curr remaining = some plan →
      ∃ outs : List UploadPartOutput, outs.length = plan.length ∧
        uploadParts cfg svc resp binaryFile fuel curr remaining pn cps tr =
          some (.ok (cps ++ List.zipWith (fun s o => some (CompletedPart.mk o.ETag s.1))
                (planSlices binaryFile pn plan) outs),
            tr ++ List.zipWith
              (fun s o => Event.UploadPart (partInputOf resp s.2 s.1) (.ok o))
              (planSlices binaryFile pn plan) outs) := by
  intro fuel
  induction fuel with
  | zero => intro curr remaining pn cps tr plan h; simp [partPlan] at h
  | succ fuel ih =>
    intro curr remaining pn cps tr plan hplan
    by_cases hrem : remaining = 0
    · subst hrem
      have hnil : plan = [] := by
        simp [partPlan] at hplan
        exact hplan
      subst hnil
      refine ⟨[], rfl, ?_⟩
      rw [uploadParts_done]
      simp [planSlices]
    · rw [partPlan] at hplan
      simp only [ne_eq, hrem, not_false_eq_true, if_true, Option.map_eq_some'] at hplan
      obtain ⟨plan2, hplan2, rfl⟩ := hplan
      obtain ⟨o, ho⟩ := hupload tr (partInputOf resp
        ((binaryFile.drop curr).take
          (if remaining < cfg.maxPartSize then remaining else cfg.maxPartSize)) pn)
      have hup := uploadPart_first_ok cfg svc resp
        ((binaryFile.drop curr).take
          (if remaining < cfg.maxPartSize then remaining else cfg.maxPartSize)) pn tr o hr ho
      obtain ⟨outs, hlen, hrun⟩ := ih
        (curr + (if remaining < cfg.maxPartSize then remaining else cfg.maxPartSize))
        (remaining - (if remaining < cfg.maxPartSize then remaining else cfg.maxPartSize))
        (pn + 1) (cps ++ [some ⟨o.ETag, pn⟩])
        (tr ++ [Event.UploadPart (partInputOf resp
          ((binaryFile.drop curr).take
            (if remaining < cfg.maxPartSize then remaining else cfg.maxPartSize)) pn) (.ok o)])
        plan2 hplan2
      refine ⟨o :: outs, by simp [hlen], ?_⟩
      rw [uploadParts_next cfg svc resp binaryFile fuel curr remaining pn cps tr _ _ hrem hup,
        hrun]
      simp [planSlices]

/-! ### The plan and the slices uploaded -/

theorem planSlices_fst (binaryFile : List Nat) :
    ∀ (plan : List (Nat × Nat)) (pn : Nat),
      (planSlices binaryFile pn plan).map Prod.fst =
        (List.range plan.length).map (fun i => i + pn) := by
  intro plan
  induction plan with
  | nil => intro pn; rfl
  | cons p plan ih =>
    intro pn
    obtain ⟨curr, len⟩ := p
    simp only [planSlices, List.map_cons, List.length_cons, List.range_succ_eq_map, ih,
      List.map_map]
    simp only [Nat.zero_add, List.cons.injEq, true_and]
    apply List.map_congr_left
    intro i _
    simp only [Function.comp_apply]
    omega

/-- C2. For a file of `size > 0` bytes and `maxPartSize > 0` the part-splitting
loop ends (any fuel above `size` is enough) and takes the slices `plan`: there
are `ceil(size / maxPartSize)` of them, the first starts at offset 0, each
starts where the one before it ends, each is `min(maxPartSize, size - offset)`
bytes long, hence between 1 and `maxPartSize`, and the lengths add up to
`size`.  This is a statement about the loop of `Upload`: that loop ends on
every backend; when no upload-part call fails it falls through after exactly
one call for each slice of `plan`, in order, the `i`-th call carrying part
number `i` and the bytes `binaryFile[offset : offset + length]` of the `i`-th
slice; and whenever it falls through, also after failed tries that were
retried, the slices it uploaded are exactly these, numbered from 1. -/
theorem partPlan_covers (cfg : Config) (size fuel : Nat) (hsize : 0 < size)
    (hm : 0 < cfg.maxPartSize) (hfuel : size < fuel) :
    ∃ plan, partPlan cfg fuel 0 size = some plan ∧
      plan.length = (size + cfg.maxPartSize - 1) / cfg.maxPartSize ∧
      plan.head?.map Prod.fst = some 0 ∧
      List.Chain' (fun a b : Nat × Nat => b.1 = a.1 + a.2) plan ∧
      (∀ p ∈ plan, p.2 = min cfg.maxPartSize (size - p.1) ∧ 1 ≤ p.2 ∧ p.2 ≤ cfg.maxPartSize) ∧
      (plan.map Prod.snd).sum = size ∧
      (∀ (svc : S3) (resp : CreateMultipartUploadOutput) (binaryFile : List Nat)
          (tr : List Event),
        ∃ r, uploadParts cfg svc resp binaryFile fuel 0 size 1 [] tr = some r) ∧
      (∀ (svc : S3) (resp : CreateMultipartUploadOutput) (binaryFile : List Nat)
          (tr : List Event),
        0 < cfg.maxRetries →
        (∀ h i, ∃ o, svc.UploadPart h i = .ok o) →
        ∃ outs : List UploadPartOutput, outs.length = plan.length ∧
          uploadParts cfg svc resp binaryFile fuel 0 size 1 [] tr =
            some (.ok (List.zipWith (fun s o => some (CompletedPart.mk o.ETag s.1))
                  (planSlices binaryFile 1 plan) outs),
              tr ++ List.zipWith
                (fun s o => Event.UploadPart (partInputOf resp s.2 s.1) (.ok o))
                (planSlices binaryFile 1 plan) outs)) ∧
      (∀ (svc : S3) (resp : CreateMultipartUploadOutput) (binaryFile : List Nat)
          (tr tr' : List Event) (parts : List (Option CompletedPart)),
        0 < cfg.maxRetries →
        uploadParts cfg svc resp binaryFile fuel 0 size 1 [] tr = some (.ok parts, tr') →
        (okUploads (tr'.drop tr.length)).map (fun io => (io.1.PartNumber, io.1.Body)) =
          planSlices binaryFile 1 plan) := by
  obtain ⟨plan, hp, hlen, hhead, hchain, hall, hsum⟩ := partPlan_inv cfg hm fuel 0 size hfuel
  refine ⟨plan, hp, hlen, ?_, hchain, ?_, hsum, ?_, ?_, ?_⟩
  · cases plan with
    | nil =>
      exfalso
      simp only [List.length_nil] at hlen
      have : 1 ≤ (size + cfg.maxPartSize - 1) / cfg.maxPartSize :=
        (Nat.one_le_div_iff hm).mpr (by omega)
      omega
    | cons p ps =>
      have := hhead p (by simp)
      simp [this]
  · intro p hpm
    obtain ⟨a, b, c, _⟩ := hall p hpm
    refine ⟨?_, b, c⟩
    rw [a, Nat.zero_add]
  · intro svc resp binaryFile tr
    exact uploadParts_total cfg svc resp binaryFile fuel 0 size 1 [] tr (fun _ => hm) hfuel
  · intro svc resp binaryFile tr hr hupload
    obtain ⟨outs, hl, hrun⟩ :=
      uploadParts_all_ok cfg svc resp binaryFile hr hupload fuel 0 size 1 [] tr plan hp
    exact ⟨outs, hl, by simpa using hrun⟩
  · intro svc resp binaryFile tr tr' parts hr hrun
    obtain ⟨ups, _, hcase⟩ := uploadParts_shape cfg svc resp binaryFile _ _ _ _ _ _ _ _ hrun
    rcases hcase with ⟨parts2, _, htr, plan2, hp2, hlink⟩ | ⟨hbad, _⟩
    · rw [hp] at hp2
      simp only [Option.some.injEq] at hp2
      subst hp2
      rw [htr, List.drop_left]
      exact (hlink hr).1
    · simp at hbad

/-- A five-byte file in parts of two bytes: the slices `(0,2)`, `(2,2)`, `(4,1)`.
The loop of `Upload`, run on these bytes, uploads `[1,2]`, `[3,4]`, `[5]` as
parts 1, 2, 3: once on a backend where every call succeeds, once on a backend
whose first upload-part call fails and is retried. -/
theorem partPlan_covers_witness :
    partPlan ⟨2, 3⟩ 6 0 5 = some [(0, 2), (2, 2), (4, 1)] ∧
    planSlices [1, 2, 3, 4, 5] 1 [(0, 2), (2, 2), (4, 1)] =
      [(1, [1, 2]), (2, [3, 4]), (3, [5])] ∧
    uploadParts ⟨2, 3⟩ (svcFlaky 0) resp0 [1, 2, 3, 4, 5] 6 0 5 1 [] [] =
      some (.ok [some ⟨"etag-1", 1⟩, some ⟨"etag-2", 2⟩, some ⟨"etag-3", 3⟩],
        [Event.UploadPart ⟨[1, 2], "bucket", "/media/now-a.png", 1, "upload-1", 2⟩
            (.ok ⟨"etag-1"⟩),
          Event.UploadPart ⟨[3, 4], "bucket", "/media/now-a.png", 2, "upload-1", 2⟩
            (.ok ⟨"etag-2"⟩),
          Event.UploadPart ⟨[5], "bucket", "/media/now-a.png", 3, "upload-1", 1⟩
            (.ok ⟨"etag-3"⟩)]) ∧
    uploadParts ⟨2, 3⟩ (svcFlaky 1) resp0 [1, 2, 3, 4, 5] 6 0 5 1 [] [] =
      some (.ok [some ⟨"etag-1", 1⟩, some ⟨"etag-2", 2⟩, some ⟨"etag-3", 3⟩],
        [Event.UploadPart ⟨[1, 2], "bucket", "/media/now-a.png", 1, "upload-1", 2⟩
            (.error "timeout"),
          Event.UploadPart ⟨[1, 2], "bucket", "/media/now-a.png", 1, "upload-1", 2⟩
            (.ok ⟨"etag-1"⟩),
          Event.UploadPart ⟨[3, 4], "bucket", "/media/now-a.png", 2, "upload-1", 2⟩
            (.ok ⟨"etag-2"⟩),
          Event.UploadPart ⟨[5], "bucket", "/media/now-a.png", 3, "upload-1", 1⟩
            (.ok ⟨"etag-3"⟩)]) ∧
    (∃ plan, partPlan ⟨2, 3⟩ 6 0 5 = some plan ∧
      plan.length = (5 + (Config.mk 2 3).maxPartSize - 1) / (Config.mk 2 3).maxPartSize ∧
      plan.head?.map Prod.fst = some 0 ∧
      List.Chain' (fun a b : Nat × Nat => b.1 = a.1 + a.2) plan ∧
      (∀ p ∈ plan, p.2 = min (Config.mk 2 3).maxPartSize (5 - p.1) ∧ 1 ≤ p.2 ∧
        p.2 ≤ (Config.mk 2 3).maxPartSize) ∧
      (plan.map Prod.snd).sum = 5 ∧
      (∀ (svc : S3) (resp : CreateMultipartUploadOutput) (binaryFile : List Nat)
          (tr : List Event),
        ∃ r, uploadParts ⟨2, 3⟩ svc resp binaryFile 6 0 5 1 [] tr = some r) ∧
      (∃ outs : List UploadPartOutput, outs.length = plan.length ∧
        uploadParts ⟨2, 3⟩ (svcFlaky 0) resp0 [1, 2, 3, 4, 5] 6 0 5 1 [] [] =
          some (.ok (List.zipWith (fun s o => some (CompletedPart.mk o.ETag s.1))
                (planSlices [1, 2, 3, 4, 5] 1 plan) outs),
            [] ++ List.zipWith
              (fun s o => Event.UploadPart (partInputOf resp0 s.2 s.1) (.ok o))
              (planSlices [1, 2, 3, 4, 5] 1 plan) outs)) ∧
      (okUploads
          ([Event.UploadPart ⟨[1, 2], "bucket", "/media/now-a.png", 1, "upload-1", 2⟩
              (.error "timeout"),
            Event.UploadPart ⟨[1, 2], "bucket", "/media/now-a.png", 1, "upload-1", 2⟩
              (.ok ⟨"etag-1"⟩),
            Event.UploadPart ⟨[3, 4], "bucket", "/media/now-a.png", 2, "upload-1", 2⟩
              (.ok ⟨"etag-2"⟩),
            Event.UploadPart ⟨[5], "bucket", "/media/now-a.png", 3, "upload-1", 1⟩
              (.ok ⟨"etag-3"⟩)].drop ([] : List Event).length)).map
          (fun io => (io.1.PartNumber, io.1.Body)) =
        planSlices [1, 2, 3, 4, 5] 1 plan) := by
  refine ⟨rfl, rfl, rfl, rfl, ?_⟩
  obtain ⟨plan, hp, hlen, hhead, hchain, hall, hsum, htotal, hok, hlink⟩ :=
    partPlan_covers ⟨2, 3⟩ 5 6 (by decide) (by decide) (by decide)
  exact ⟨plan, hp, hlen, hhead, hchain, hall, hsum, htotal,
    hok (svcFlaky 0) resp0 [1, 2, 3, 4, 5] [] (by decide) (fun _ _ => ⟨_, rfl⟩),
    hlink (svcFlaky 1) resp0 [1, 2, 3, 4, 5] [] _ _ (by decide) rfl⟩

/-! ### A file of 12 MB -/

theorem Upload_of_invalid (cfg : Config) (env : Env) (svc : S3) (files : List FileHeader)
    (message : String) (h : validateUploadFiles cfg files = (false, message)) :
    Upload cfg env svc files =
      some (.failure 400 message "validateUploadFiles(form.Files)", []) := by
  unfold Upload
  rw [h]

theorem file12MB_Size : file12MB.Size = 12582912 := by
  unfold FileHeader.Size file12MB
  exact List.length_replicate _ _

theorem file12MB_invalid : validateUploadFiles consts [file12MB] = (false, "File too large") := by
  have h : file12MB.Size > consts.maxPartSize := by
    rw [file12MB_Size]
    decide
  rw [validateUploadFiles, if_pos h]

/-- The part loop on the backend `svcABC` for any 12 MB of bytes, entered
after the create call: three parts of 5 MB, 5 MB and 2 MB. -/
theorem uploadParts_12MB (resp : CreateMultipartUploadOutput) (bs : List Nat)
    (ci : CreateMultipartUploadInput) :
    uploadParts consts svcABC resp bs 12582913 0 12582912 1 []
        [Event.CreateMultipartUpload ci (.ok resp)] =
      some (.ok [some ⟨"a", 1⟩, some ⟨"b", 2⟩, some ⟨"c", 3⟩],
        [Event.CreateMultipartUpload ci (.ok resp),
          Event.UploadPart (partInputOf resp ((bs.drop 0).take 5242880) 1) (.ok ⟨"a"⟩),
          Event.UploadPart (partInputOf resp ((bs.drop 5242880).take 5242880) 2) (.ok ⟨"b"⟩),
          Event.UploadPart (partInputOf resp ((bs.drop 10485760).take 2097152) 3)
            (.ok ⟨"c"⟩)]) := by
  have hr : 0 < consts.maxRetries := by decide
  have h1 := uploadPart_first_ok consts svcABC resp ((bs.drop 0).take 5242880) 1
    [Event.CreateMultipartUpload ci (.ok resp)] ⟨"a"⟩ hr rfl
  have h2 := uploadPart_first_ok consts svcABC resp ((bs.drop 5242880).take 5242880) 2
    ([Event.CreateMultipartUpload ci (.ok resp)] ++
      [Event.UploadPart (partInputOf resp ((bs.drop 0).take 5242880) 1) (.ok ⟨"a"⟩)])
    ⟨"b"⟩ hr rfl
  have h3 := uploadPart_first_ok consts svcABC resp ((bs.drop 10485760).take 2097152) 3
    ([Event.CreateMultipartUpload ci (.ok resp)] ++
      [Event.UploadPart (partInputOf resp ((bs.drop 0).take 5242880) 1) (.ok ⟨"a"⟩)] ++
      [Event.UploadPart (partInputOf resp ((bs.drop 5242880).take 5242880) 2) (.ok ⟨"b"⟩)])
    ⟨"c"⟩ hr rfl
  have s1 := uploadParts_next consts svcABC resp bs 12582912 0 12582912 1 [] _ _ _
    (by decide) h1
  have s2 := uploadParts_next consts svcABC resp bs 12582911 5242880 7340032 2
    ([] ++ [some ⟨"a", 1⟩]) _ _ _ (by decide) h2
  have s3 := uploadParts_next consts svcABC resp bs 12582910 10485760 2097152 3
    ([] ++ [some ⟨"a", 1⟩] ++ [some ⟨"b", 2⟩]) _ _ _ (by decide) h3
  have s4 := uploadParts_done consts svcABC resp bs 12582909 12582912 4
    ([] ++ [some ⟨"a", 1⟩] ++ [some ⟨"b", 2⟩] ++ [some ⟨"c", 3⟩])
    ([Event.CreateMultipartUpload ci (.ok resp)] ++
      [Event.UploadPart (partInputOf resp ((bs.drop 0).take 5242880) 1) (.ok ⟨"a"⟩)] ++
      [Event.UploadPart (partInputOf resp ((bs.drop 5242880).take 5242880) 2) (.ok ⟨"b"⟩)] ++
      [Event.UploadPart (partInputOf resp ((bs.drop 10485760).take 2097152) 3) (.ok ⟨"c"⟩)])
  exact s1.trans (s2.trans (s3.trans s4))

/-- The steps for one file on the backend `svcABC`, for any readable file of
12 MB. -/
theorem uploadFile_12MB (f : FileHeader) (hsize : f.Size = 12582912) (hread : f.readErr = none) :
    uploadFile consts env0 svcABC f [] =
      some (.ok ("https://s3/" ++ (createInputOf env0 f f.content).Key),
        [Event.CreateMultipartUpload (createInputOf env0 f f.content)
            (.ok ⟨"bucket", (createInputOf env0 f f.content).Key, "upload-1"⟩),
          Event.UploadPart
            (partInputOf ⟨"bucket", (createInputOf env0 f f.content).Key, "upload-1"⟩
              ((f.content.drop 0).take 5242880) 1) (.ok ⟨"a"⟩),
          Event.UploadPart
            (partInputOf ⟨"bucket", (createInputOf env0 f f.content).Key, "upload-1"⟩
              ((f.content.drop 5242880).take 5242880) 2) (.ok ⟨"b"⟩),
          Event.UploadPart
            (partInputOf ⟨"bucket", (createInputOf env0 f f.content).Key, "upload-1"⟩
              ((f.content.drop 10485760).take 2097152) 3) (.ok ⟨"c"⟩),
          Event.CompleteMultipartUpload
            ⟨"bucket", (createInputOf env0 f f.content).Key, "upload-1",
              [some ⟨"a", 1⟩, some ⟨"b", 2⟩, some ⟨"c", 3⟩]⟩
            (.ok ⟨"https://s3/" ++ (createInputOf env0 f f.content).Key⟩)]) := by
  unfold uploadFile readFile
  rw [hread, hsize]
  simp only
  have hc : svcABC.CreateMultipartUpload [] (createInputOf env0 f f.content) =
      .ok ⟨"bucket", (createInputOf env0 f f.content).Key, "upload-1"⟩ := rfl
  rw [hc]
  simp only [List.nil_append]
  rw [uploadParts_12MB]
  rfl

theorem file12MB_content : file12MB.content = List.replicate 12582912 0 := rfl

theorem file12MB_slices :
    (file12MB.content.drop 0).take 5242880 = List.replicate 5242880 0 ∧
    (file12MB.content.drop 5242880).take 5242880 = List.replicate 5242880 0 ∧
    (file12MB.content.drop 10485760).take 2097152 = List.replicate 2097152 0 := by
  rw [file12MB_content]
  refine ⟨?_, ?_, ?_⟩ <;>
  · rw [List.drop_replicate, List.take_replicate]
    exact congrArg (fun n => List.replicate n 0) (by decide)

/-- C7 fails on the code: the 12 MB file is over the validator's limit, which is
`maxPartSize` (5 MB), so the handler answers 400 and makes no backend call. -/
theorem Upload_12MB_rejected :
    Upload consts env0 svcABC [file12MB] =
      some (.failure 400 "File too large" "validateUploadFiles(form.Files)", []) :=
  Upload_of_invalid consts env0 svcABC [file12MB] "File too large" file12MB_invalid

/-- C7, as the code has it.  For the batch of one 12 MB JPEG the handler
answers 400 "File too large" without a backend call; the steps of lines
107-188, run on that file against the backend `svcABC`, make three upload-part
calls of 5 MB, 5 MB and 2 MB, call the completion operation with the parts
`(1,"a")`, `(2,"b")`, `(3,"c")` and give the location the completion call
returned. -/
theorem uploadFile_12MB_three_parts :
    Upload consts env0 svcABC [file12MB] =
      some (.failure 400 "File too large" "validateUploadFiles(form.Files)", []) ∧
    uploadFile consts env0 svcABC file12MB [] =
      some (.ok "https://s3//media/now-big.jpg",
        [Event.CreateMultipartUpload
            ⟨"bucket", "/media/now-big.jpg", "application/octet-stream"⟩
            (.ok ⟨"bucket", "/media/now-big.jpg", "upload-1"⟩),
          Event.UploadPart
            ⟨List.replicate (5 * 1024 * 1024) 0, "bucket", "/media/now-big.jpg", 1, "upload-1",
              5 * 1024 * 1024⟩ (.ok ⟨"a"⟩),
          Event.UploadPart
            ⟨List.replicate (5 * 1024 * 1024) 0, "bucket", "/media/now-big.jpg", 2, "upload-1",
              5 * 1024 * 1024⟩ (.ok ⟨"b"⟩),
          Event.UploadPart
            ⟨List.replicate (2 * 1024 * 1024) 0, "bucket", "/media/now-big.jpg", 3, "upload-1",
              2 * 1024 * 1024⟩ (.ok ⟨"c"⟩),
          Event.CompleteMultipartUpload
            ⟨"bucket", "/media/now-big.jpg", "upload-1",
              [some ⟨"a", 1⟩, some ⟨"b", 2⟩, some ⟨"c", 3⟩]⟩
            (.ok ⟨"https://s3//media/now-big.jpg"⟩)]) := by
  refine ⟨Upload_of_invalid consts env0 svcABC [file12MB] "File too large" file12MB_invalid, ?_⟩
  rw [uploadFile_12MB file12MB file12MB_Size rfl]
  rw [file12MB_slices.1, file12MB_slices.2.1, file12MB_slices.2.2]
  simp only [partInputOf, List.length_replicate]
  rfl

/-! ### The parts passed to the completion call -/

theorem okUploads_create (i : CreateMultipartUploadInput)
    (r : Except Error CreateMultipartUploadOutput) (rest : List Event) :
    okUploads (Event.CreateMultipartUpload i r :: rest) = okUploads rest := rfl

theorem okUploads_complete (i : CompleteMultipartUploadInput)
    (r : Except Error CompleteMultipartUploadOutput) (rest : List Event) :
    okUploads (Event.CompleteMultipartUpload i r :: rest) = okUploads rest := rfl

/-- C4. The steps for one file always end.  Whenever they reach the completion
call, which they do exactly when no part was given up, the part list passed to
it has the part numbers `1, 2, ..., n` in this order, `n` being the number of
planned slices; it is the list of the successful upload-part calls of the file
in the order they were made, each entry carrying the part number of the call
and the eTag the call returned; and the `i`-th successful call uploaded the
`i`-th planned slice.  Failed tries that were retried leave no entry. -/
theorem uploadFile_completed_parts (cfg : Config) (env : Env) (svc : S3) (formFile : FileHeader)
    (tr : List Event) (hm : 0 < cfg.maxPartSize) (hr : 0 < cfg.maxRetries) :
    ∃ res new, uploadFile cfg env svc formFile tr = some (res, tr ++ new) ∧
      ∀ cinp cres, Event.CompleteMultipartUpload cinp cres ∈ new →
        ∃ plan, partPlan cfg (formFile.Size + 1) 0 formFile.Size = some plan ∧
          cinp.Parts.map (Option.map CompletedPart.PartNumber) =
            (List.range plan.length).map (fun i => some (i + 1)) ∧
          cinp.Parts = (okUploads new).map
            (fun io => some (CompletedPart.mk io.2.ETag io.1.PartNumber)) ∧
          (okUploads new).map (fun io => (io.1.PartNumber, io.1.Body)) =
            planSlices formFile.content 1 plan ∧
          new.countP Event.isAbort = 0 := by
  obtain ⟨⟨res, tr'⟩, h⟩ := uploadFile_total cfg env svc formFile tr (fun _ => hm)
  rcases uploadFile_shape cfg env svc formFile tr res tr' h with
    ⟨_, rfl⟩ | ⟨e, _, rfl⟩ | ⟨resp, ups, hups, hcase⟩
  · refine ⟨res, [], by simpa using h, ?_⟩
    intro cinp cres hmem
    simp at hmem
  · refine ⟨res, _, h, ?_⟩
    intro cinp cres hmem
    simp at hmem
  · rcases hcase with ⟨_, ups0, inp, errs, a, _, _, _, _, _, _, rfl⟩ |
      ⟨parts, cres0, rfl, _, plan, hplan, hlink⟩
    · refine ⟨res, _, by rw [h, List.append_assoc], ?_⟩
      intro cinp cres hmem
      exfalso
      simp only [List.cons_append, List.mem_cons, List.mem_append, List.mem_singleton,
        List.not_mem_nil, or_false] at hmem
      rcases hmem with hmem | hmem | hmem
      · cases hmem
      · have := isComplete_of_isUploadPart _ (hups _ hmem)
        simp [Event.isComplete] at this
      · cases hmem
    · refine ⟨res, _, by rw [h, List.append_assoc], ?_⟩
      intro cinp cres hmem
      obtain ⟨hl1, hl2⟩ := hlink hr
      have hcinp : cinp = ⟨resp.Bucket, resp.Key, resp.UploadId, parts⟩ := by
        simp only [List.cons_append, List.mem_cons, List.mem_append, List.mem_singleton,
          List.not_mem_nil, or_false] at hmem
        rcases hmem with hmem | hmem | hmem
        · cases hmem
        · have := isComplete_of_isUploadPart _ (hups _ hmem)
          simp [Event.isComplete] at this
        · cases hmem
          rfl
      have hok : okUploads (Event.CreateMultipartUpload
          (createInputOf env formFile formFile.content) (.ok resp) :: ups ++
          [Event.CompleteMultipartUpload ⟨resp.Bucket, resp.Key, resp.UploadId, parts⟩ cres0]) =
          okUploads ups := by
        rw [List.cons_append, okUploads_create, okUploads_append, okUploads_complete]
        simp [okUploads]
      have hnum : parts.map (Option.map CompletedPart.PartNumber) =
          (List.range plan.length).map (fun i => some (i + 1)) := by
        have h3 := congrArg (List.map Prod.fst) hl1
        rw [planSlices_fst, List.map_map] at h3
        rw [hl2, List.map_map]
        have h4 := congrArg (List.map some) h3
        rw [List.map_map, List.map_map] at h4
        exact h4
      refine ⟨plan, hplan, ?_, ?_, ?_, ?_⟩
      · rw [hcinp]
        exact hnum
      · rw [hcinp, hok]
        exact hl2
      · rw [hok]
        exact hl1
      · apply countP_isAbort_eq_zero
        intro e he
        simp only [List.cons_append, List.mem_cons, List.mem_append, List.mem_singleton,
          List.not_mem_nil, or_false] at he
        rcases he with he | he | he
        · rw [he]; rfl
        · exact isAbort_of_isUploadPart e (hups e he)
        · rw [he]; rfl

/-- A five-byte file in parts of two bytes, the first call failing once. -/
theorem uploadFile_completed_parts_witness :
    uploadFile twoByteParts env0 (svcFlaky 1) fiveBytes [] =
      some (.ok "https://s3//media/now-c.png",
        [Event.CreateMultipartUpload ⟨"bucket", "/media/now-c.png", "application/octet-stream"⟩
            (.ok ⟨"bucket", "/media/now-c.png", "upload-1"⟩),
          Event.UploadPart ⟨[1, 2], "bucket", "/media/now-c.png", 1, "upload-1", 2⟩
            (.error "timeout"),
          Event.UploadPart ⟨[1, 2], "bucket", "/media/now-c.png", 1, "upload-1", 2⟩
            (.ok ⟨"etag-1"⟩),
          Event.UploadPart ⟨[3, 4], "bucket", "/media/now-c.png", 2, "upload-1", 2⟩
            (.ok ⟨"etag-2"⟩),
          Event.UploadPart ⟨[5], "bucket", "/media/now-c.png", 3, "upload-1", 1⟩
            (.ok ⟨"etag-3"⟩),
          Event.CompleteMultipartUpload
            ⟨"bucket", "/media/now-c.png", "upload-1",
              [some ⟨"etag-1", 1⟩, some ⟨"etag-2", 2⟩, some ⟨"etag-3", 3⟩]⟩
            (.ok ⟨"https://s3//media/now-c.png"⟩)]) ∧
    ∃ res new, uploadFile twoByteParts env0 (svcFlaky 1) fiveBytes [] = some (res, [] ++ new) ∧
      ∀ cinp cres, Event.CompleteMultipartUpload cinp cres ∈ new →
        ∃ plan, partPlan twoByteParts (fiveBytes.Size + 1) 0 fiveBytes.Size = some plan ∧
          cinp.Parts.map (Option.map CompletedPart.PartNumber) =
            (List.range plan.length).map (fun i => some (i + 1)) ∧
          cinp.Parts = (okUploads new).map
            (fun io => some (CompletedPart.mk io.2.ETag io.1.PartNumber)) ∧
          (okUploads new).map (fun io => (io.1.PartNumber, io.1.Body)) =
            planSlices fiveBytes.content 1 plan ∧
          new.countP Event.isAbort = 0 :=
  ⟨rfl, uploadFile_completed_parts twoByteParts env0 (svcFlaky 1) fiveBytes []
    (by decide) (by decide)⟩

/-! ### The empty file -/

/-- C8 fails on the code: for the empty file the loop body is never run; no
upload-part call is made and the completion call gets the empty part list. -/
theorem Upload_empty_file_no_part :
    Upload consts env0 (svcFlaky 0) [emptyPng] =
      some (.success 200 ["https://s3//media/now-e.png"],
        [Event.CreateMultipartUpload ⟨"bucket", "/media/now-e.png", "text/plain; charset=utf-8"⟩
            (.ok ⟨"bucket", "/media/now-e.png", "upload-1"⟩),
          Event.CompleteMultipartUpload ⟨"bucket", "/media/now-e.png", "upload-1", []⟩
            (.ok ⟨"https://s3//media/now-e.png"⟩)]) ∧
    partPlan consts (emptyPng.Size + 1) 0 emptyPng.Size = some [] :=
  ⟨rfl, rfl⟩

/-- C8, as the code has it.  For a readable file of size 0 whose create call
succeeds, the loop condition `remaining != 0` fails at once: the plan is empty,
the loop falls through without a call, and the steps for the file consist of the
create call followed by the completion call with the empty part list. -/
theorem uploadFile_empty (cfg : Config) (env : Env) (svc : S3) (formFile : FileHeader)
    (tr : List Event) (resp : CreateMultipartUploadOutput)
    (hsize : formFile.Size = 0) (hread : formFile.readErr = none)
    (hcreate : svc.CreateMultipartUpload tr (createInputOf env formFile formFile.content) =
      .ok resp) :
    partPlan cfg (formFile.Size + 1) 0 formFile.Size = some [] ∧
    (∀ tr1, uploadParts cfg svc resp formFile.content (formFile.Size + 1) 0 formFile.Size 1 []
      tr1 = some (.ok [], tr1)) ∧
    ∃ res, uploadFile cfg env svc formFile tr =
      some (res,
        tr ++ [Event.CreateMultipartUpload (createInputOf env formFile formFile.content)
            (.ok resp),
          Event.CompleteMultipartUpload ⟨resp.Bucket, resp.Key, resp.UploadId, []⟩
            (svc.CompleteMultipartUpload
              (tr ++ [Event.CreateMultipartUpload (createInputOf env formFile formFile.content)
                (.ok resp)])
              ⟨resp.Bucket, resp.Key, resp.UploadId, []⟩)]) := by
  refine ⟨by rw [hsize]; rfl, ?_, ?_⟩
  · intro tr1
    rw [hsize]
    exact uploadParts_done cfg svc resp formFile.content 0 0 1 [] tr1
  · unfold uploadFile readFile
    rw [hread]
    simp only
    rw [hcreate]
    simp only
    rw [hsize, uploadParts_done]
    simp only [completeMultipartUpload]
    cases svc.CompleteMultipartUpload
        (tr ++ [Event.CreateMultipartUpload (createInputOf env formFile formFile.content)
          (.ok resp)])
        ⟨resp.Bucket, resp.Key, resp.UploadId, []⟩ with
    | ok out => exact ⟨.ok out.Location, by simp⟩
    | error e =>
      exact ⟨.error (.failure 500 "Failed completeMultipartUpload"
        "completeMultipartUpload(svc, resp, completedParts)"), by simp⟩

/-- The empty PNG with the constants of the source. -/
theorem uploadFile_empty_witness :
    partPlan consts (emptyPng.Size + 1) 0 emptyPng.Size = some [] ∧
    (∀ tr1, uploadParts consts (svcFlaky 0) ⟨"bucket", "/media/now-e.png", "upload-1"⟩
      emptyPng.content (emptyPng.Size + 1) 0 emptyPng.Size 1 [] tr1 = some (.ok [], tr1)) ∧
    ∃ res, uploadFile consts env0 (svcFlaky 0) emptyPng [] =
      some (res,
        [] ++ [Event.CreateMultipartUpload (createInputOf env0 emptyPng emptyPng.content)
            (.ok ⟨"bucket", "/media/now-e.png", "upload-1"⟩),
          Event.CompleteMultipartUpload ⟨"bucket", "/media/now-e.png", "upload-1", []⟩
            ((svcFlaky 0).CompleteMultipartUpload
              ([] ++ [Event.CreateMultipartUpload (createInputOf env0 emptyPng emptyPng.content)
                (.ok ⟨"bucket", "/media/now-e.png", "upload-1"⟩)])
              ⟨"bucket", "/media/now-e.png", "upload-1", []⟩)]) :=
  uploadFile_empty consts env0 (svcFlaky 0) emptyPng []
    ⟨"bucket", "/media/now-e.png", "upload-1"⟩ rfl rfl rfl

/-! ### Batches that succeed -/

/-- On a backend whose upload-part calls all succeed, `uploadPart` returns no
error. -/
theorem uploadPart_no_error (cfg : Config) (svc : S3) (resp : CreateMultipartUploadOutput)
    (fileBytes : List Nat) (pn : Nat) (tr : List Event)
    (hupload : ∀ h i, ∃ o, svc.UploadPart h i = .ok o) :
    ∃ cp tr1, uploadPart cfg svc resp fileBytes pn tr = some ((cp, none), tr1) := by
  unfold uploadPart
  rw [uploadPartLoop]
  obtain ⟨o, ho⟩ := hupload tr (partInputOf resp fileBytes pn)
  split
  · rw [ho]
    exact ⟨_, _, rfl⟩
  · exact ⟨_, _, rfl⟩

theorem uploadParts_no_error (cfg : Config) (svc : S3) (resp : CreateMultipartUploadOutput)
    (binaryFile : List Nat) (hupload : ∀ h i, ∃ o, svc.UploadPart h i = .ok o) :
    ∀ (fuel curr remaining pn : Nat) (cps : List (Option CompletedPart)) (tr : List Event),
      (remaining ≠ 0 → 0 < cfg.maxPartSize) → remaining < fuel →
      ∃ parts tr', uploadParts cfg svc resp binaryFile fuel curr remaining pn cps tr =
        some (.ok parts, tr') := by
  intro fuel
  induction fuel with
  | zero => intro curr remaining pn cps tr _ h; omega
  | succ fuel ih =>
    intro curr remaining pn cps tr hm hlt
    by_cases hr : remaining = 0
    · subst hr
      exact ⟨_, _, uploadParts_done cfg svc resp binaryFile fuel curr pn cps tr⟩
    · have hpos := hm hr
      obtain ⟨cp, tr1, hup⟩ := uploadPart_no_error cfg svc resp
        ((binaryFile.drop curr).take
          (if remaining < cfg.maxPartSize then remaining else cfg.maxPartSize)) pn tr hupload
      rw [uploadParts_next cfg svc resp binaryFile fuel curr remaining pn cps tr tr1 cp hr hup]
      apply ih
      · intro _; exact hpos
      · split <;> omega

/-- The steps for one readable file on a backend where every call succeeds. -/
theorem uploadFile_success (cfg : Config) (env : Env) (svc : S3) (formFile : FileHeader)
    (tr : List Event) (hm : formFile.Size ≠ 0 → 0 < cfg.maxPartSize)
    (hread : formFile.readErr = none)
    (hcreate : ∀ h i, ∃ o, svc.CreateMultipartUpload h i = .ok o)
    (hupload : ∀ h i, ∃ o, svc.UploadPart h i = .ok o)
    (hcomplete : ∀ h i, ∃ o, svc.CompleteMultipartUpload h i = .ok o) :
    ∃ resp ups parts out,
      uploadFile cfg env svc formFile tr =
        some (.ok out.Location,
          tr ++ (Event.CreateMultipartUpload (createInputOf env formFile formFile.content)
              (.ok resp) :: ups ++
            [Event.CompleteMultipartUpload ⟨resp.Bucket, resp.Key, resp.UploadId, parts⟩
              (.ok out)])) ∧
      (∀ e ∈ ups, e.isUploadPart = true) := by
  obtain ⟨resp, hc⟩ := hcreate tr (createInputOf env formFile formFile.content)
  obtain ⟨parts, tr2, hp⟩ := uploadParts_no_error cfg svc resp formFile.content hupload
    (formFile.Size + 1) 0 formFile.Size 1 []
    (tr ++ [Event.CreateMultipartUpload (createInputOf env formFile formFile.content) (.ok resp)])
    hm (by omega)
  obtain ⟨ups, hups, hcase⟩ := uploadParts_shape cfg svc resp formFile.content _ _ _ _ _ _ _ _ hp
  rcases hcase with ⟨parts2, hparts, htr, _⟩ | ⟨hbad, _⟩
  · obtain ⟨out, hout⟩ := hcomplete tr2 ⟨resp.Bucket, resp.Key, resp.UploadId, parts⟩
    refine ⟨resp, ups, parts, out, ?_, hups⟩
    unfold uploadFile readFile
    rw [hread]
    simp only
    rw [hc]
    simp only
    rw [hp]
    simp only [completeMultipartUpload]
    rw [hout]
    simp [htr]
  · simp at hbad

/-- The loop over the files when every file is readable and every backend call
succeeds: one block of calls per file, and the locations fill `successPaths`
from index `pathNumber` on. -/
theorem uploadFiles_success (cfg : Config) (env : Env) (svc : S3)
    (hcreate : ∀ h i, ∃ o, svc.CreateMultipartUpload h i = .ok o)
    (hupload : ∀ h i, ∃ o, svc.UploadPart h i = .ok o)
    (hcomplete : ∀ h i, ∃ o, svc.CompleteMultipartUpload h i = .ok o) :
    ∀ (files : List FileHeader) (filled : List String) (tr : List Event),
      (∀ f ∈ files, f.readErr = none ∧ (f.Size ≠ 0 → 0 < cfg.maxPartSize)) →
      ∃ blocks : List (List Event × String),
        uploadFiles cfg env svc files (filled ++ List.replicate files.length "") filled.length tr =
          some (.ok (filled ++ blocks.map Prod.snd), tr ++ (blocks.map Prod.fst).flatten) ∧
        List.Forall₂ (fun (f : FileHeader) (b : List Event × String) =>
          ∃ resp ups parts out,
            b.1 = Event.CreateMultipartUpload (createInputOf env f f.content) (.ok resp) :: ups ++
              [Event.CompleteMultipartUpload ⟨resp.Bucket, resp.Key, resp.UploadId, parts⟩
                (.ok out)] ∧
            (∀ e ∈ ups, e.isUploadPart = true) ∧
            b.2 = out.Location) files blocks := by
  intro files
  induction files with
  | nil =>
    intro filled tr _
    exact ⟨[], by simp [uploadFiles], List.Forall₂.nil⟩
  | cons f fs ih =>
    intro filled tr hall
    obtain ⟨hread, hm⟩ := hall f (List.mem_cons_self f fs)
    obtain ⟨resp, ups, parts, out, hf, hups⟩ :=
      uploadFile_success cfg env svc f tr hm hread hcreate hupload hcomplete
    obtain ⟨blocks, hrest, hforall⟩ := ih (filled ++ [out.Location])
      (tr ++ (Event.CreateMultipartUpload (createInputOf env f f.content) (.ok resp) :: ups ++
        [Event.CompleteMultipartUpload ⟨resp.Bucket, resp.Key, resp.UploadId, parts⟩ (.ok out)]))
      (fun g hg => hall g (List.mem_cons_of_mem f hg))
    refine ⟨(Event.CreateMultipartUpload (createInputOf env f f.content) (.ok resp) :: ups ++
        [Event.CompleteMultipartUpload ⟨resp.Bucket, resp.Key, resp.UploadId, parts⟩ (.ok out)],
        out.Location) :: blocks, ?_, ?_⟩
    · rw [uploadFiles, hf]
      simp only
      have hset : (filled ++ List.replicate (f :: fs).length "").set filled.length out.Location =
          (filled ++ [out.Location]) ++ List.replicate fs.length "" := by
        rw [List.set_append_right _ _ (Nat.le_refl _)]
        simp [List.replicate_succ]
      have hlen : filled.length + 1 = (filled ++ [out.Location]).length := by simp
      rw [hset, hlen, hrest]
      simp
    · exact List.Forall₂.cons ⟨resp, ups, parts, out, rfl, hups, rfl⟩ hforall

/-- C9. For a batch in which every file passes the validator and is readable,
with working credentials and session, on a backend where every create,
upload-part and complete call succeeds, the handler answers `200` with the list
`paths`: the trace is one block of calls per submitted file, in submission
order (the create call of that file, upload-part calls, the completion call),
and the `i`-th path is the location returned by the completion call of the
`i`-th file; there are as many paths as files. -/
theorem Upload_success (cfg : Config) (env : Env) (svc : S3) (files : List FileHeader)
    (hvalid : validateUploadFiles cfg files = (true, "ok"))
    (hcreds : env.credsErr = none) (hsession : env.sessionErr = none)
    (hread : ∀ f ∈ files, f.readErr = none)
    (hcreate : ∀ h i, ∃ o, svc.CreateMultipartUpload h i = .ok o)
    (hupload : ∀ h i, ∃ o, svc.UploadPart h i = .ok o)
    (hcomplete : ∀ h i, ∃ o, svc.CompleteMultipartUpload h i = .ok o) :
    ∃ blocks : List (List Event × String),
      Upload cfg env svc files =
        some (.success 200 (blocks.map Prod.snd), (blocks.map Prod.fst).flatten) ∧
      (blocks.map Prod.snd).length = files.length ∧
      List.Forall₂ (fun (f : FileHeader) (b : List Event × String) =>
        ∃ resp ups parts out,
          b.1 = Event.CreateMultipartUpload (createInputOf env f f.content) (.ok resp) :: ups ++
            [Event.CompleteMultipartUpload ⟨resp.Bucket, resp.Key, resp.UploadId, parts⟩
              (.ok out)] ∧
          (∀ e ∈ ups, e.isUploadPart = true) ∧
          b.2 = out.Location) files blocks := by
  have hall : ∀ f ∈ files, f.readErr = none ∧ (f.Size ≠ 0 → 0 < cfg.maxPartSize) := by
    intro f hf
    refine ⟨hread f hf, ?_⟩
    intro hne
    have := ((validateUploadFiles_all cfg files).mp hvalid f hf).1
    omega
  obtain ⟨blocks, hrun, hforall⟩ :=
    uploadFiles_success cfg env svc hcreate hupload hcomplete files [] [] hall
  refine ⟨blocks, ?_, ?_, hforall⟩
  · unfold Upload
    rw [hvalid]
    simp only
    rw [hcreds]
    simp only
    rw [hsession]
    simp only
    simp only [List.nil_append, List.length_nil] at hrun
    rw [hrun]
  · rw [List.length_map]
    exact hforall.length_eq.symm

/-- Two files on a backend where every call succeeds. -/
theorem Upload_success_witness :
    Upload consts env0 (svcFlaky 0) [smallPng, fiveBytes] =
      some (.success 200 ["https://s3//media/now-a.png", "https://s3//media/now-c.png"],
        [Event.CreateMultipartUpload ⟨"bucket", "/media/now-a.png", "application/octet-stream"⟩
            (.ok ⟨"bucket", "/media/now-a.png", "upload-1"⟩),
          Event.UploadPart ⟨[1, 2, 3], "bucket", "/media/now-a.png", 1, "upload-1", 3⟩
            (.ok ⟨"etag-1"⟩),
          Event.CompleteMultipartUpload
            ⟨"bucket", "/media/now-a.png", "upload-1", [some ⟨"etag-1", 1⟩]⟩
            (.ok ⟨"https://s3//media/now-a.png"⟩),
          Event.CreateMultipartUpload ⟨"bucket", "/media/now-c.png", "application/octet-stream"⟩
            (.ok ⟨"bucket", "/media/now-c.png", "upload-1"⟩),
          Event.UploadPart ⟨[1, 2, 3, 4, 5], "bucket", "/media/now-c.png", 1, "upload-1", 5⟩
            (.ok ⟨"etag-1"⟩),
          Event.CompleteMultipartUpload
            ⟨"bucket", "/media/now-c.png", "upload-1", [some ⟨"etag-1", 1⟩]⟩
            (.ok ⟨"https://s3//media/now-c.png"⟩)]) ∧
    ∃ blocks : List (List Event × String),
      Upload consts env0 (svcFlaky 0) [smallPng, fiveBytes] =
        some (.success 200 (blocks.map Prod.snd), (blocks.map Prod.fst).flatten) ∧
      (blocks.map Prod.snd).length = [smallPng, fiveBytes].length ∧
      List.Forall₂ (fun (f : FileHeader) (b : List Event × String) =>
        ∃ resp ups parts out,
          b.1 = Event.CreateMultipartUpload (createInputOf env0 f f.content) (.ok resp) :: ups ++
            [Event.CompleteMultipartUpload ⟨resp.Bucket, resp.Key, resp.UploadId, parts⟩
              (.ok out)] ∧
          (∀ e ∈ ups, e.isUploadPart = true) ∧
          b.2 = out.Location) [smallPng, fiveBytes] blocks :=
  ⟨rfl, Upload_success consts env0 (svcFlaky 0) [smallPng, fiveBytes] rfl rfl rfl
    (by
      intro f hf
      simp only [List.mem_cons, List.mem_singleton, List.not_mem_nil, or_false] at hf
      rcases hf with rfl | rfl <;> rfl)
    (fun _ _ => ⟨_, rfl⟩) (fun _ _ => ⟨_, rfl⟩) (fun _ _ => ⟨_, rfl⟩)⟩

end Uploader
